import Mathlib

/-!
The autocache tables: a uniform lookup table and an adaptive, bucketed one.

A shallow embedding of `original_cacher.cpp`, `smart_cacher.cpp` and `utils.h`, and the
properties of the two tables proved on it.

Modelling conventions.
* The tables are modelled with `double` arithmetic taken as exact: `input_t` and `output_t` are
  `ℚ`.  What is proved of them is proved of exact arithmetic.
* Where rounding decides a property, the operation is modelled a second time in IEEE 754
  binary64 arithmetic: `round_double` is rounding to the nearest `double`, ties to even, and
  each `double` operation is the exact one followed by `round_double`.  This is done for the
  index computed by `OriginalCacher::retrieve` (`retrieve_ind_double`) and for the control
  variable of the probe loop of `SmartCacher::init` (`curr_x_double`).
* A quotient whose divisor is zero has no value in exact arithmetic (in the source it is
  `0 / 0`, not a number).  The quotients of `SmartCacher::init` whose divisor can be zero are
  computed by `safe_div` and carried as `Option ℚ`, `none` being "not a number";
  `static_cast<size_t>` of such a value is not defined by the language, so its result is a
  parameter (`nan_cast`) of `init`, and the theorems hold for every value of it.
* `std::vector` and the heap arrays are lists; `push_back` appends at the end, `back()` is the
  last element.  A read past the end of an array is a fault.
* `new output_t[n]` in the allocation loop of `SmartCacher::init` throws when `n` elements are
  more than an array can have (`max_array_len`); the exception is not caught and `init` does
  not return (`allocationFailed`).  Memory is otherwise not bounded: an array within that
  length is always obtained, and every other allocation succeeds.
* `while` loops take a bound on the number of iterations (`fuel`) and report when it is used
  up.  One bound serves all the loops of a call.
* Counts and indices of type `size_t` are natural numbers.  The subtraction `mid_bucket - 1`
  in `retrieve` can leave the range and wraps around modulo `2 ^ 64` (`size_t_sub`); an array
  length `est_num_elems_for_bucket + safety` that leaves it is more than `max_array_len`.
* Values of type `int` are integers between `INT_MIN` and `INT_MAX`.  A conversion from
  `double` whose truncated value is outside that range, and an increment past `INT_MAX`, have
  no defined result: `cast_int` and `OriginalCacher.init` return `none` there.
* Ghost state records events that the source does not store: the flag `wrapped` of the search
  loop, and the trace `seg_avg_calls` of the collections passed to the aggregator.
* The debug file dumps of `init` have no effect on the table and are left out.
-/

set_option autoImplicit false

namespace AutoCache

/-! ## utils.h -/

/-- Aggregator `avg_function` of `utils.h`: the running sum divided by the number of values. -/
def avg_function (values : List ℚ) : ℚ :=
  values.foldl (fun res v => res + v) 0 / (values.length : ℚ)

/-- The call `avg_function(values)` as a state transformer on the collection, which the source
reads through `const &`: the value returned and the collection after the call. -/
def avg_function_run (values : List ℚ) : ℚ × List ℚ :=
  (avg_function values, values)

/-! ## original_cacher.cpp -/

/-- Fields of `OriginalCacher` (with those inherited from `Cacher`). -/
structure OriginalCacher where
  _input_range_start : ℚ
  _input_range_end : ℚ
  _cached_function : ℚ → ℚ
  _size : Nat
  _use_middle : Bool
  _cache : List ℚ

/-- Constructor of `OriginalCacher`: the array is not allocated yet. -/
def OriginalCacher.new (size : Nat) (cached_function : ℚ → ℚ) (start last : ℚ)
    (use_middle : Bool) : OriginalCacher :=
  { _input_range_start := start, _input_range_end := last,
    _cached_function := cached_function, _size := size,
    _use_middle := use_middle, _cache := [] }

/-- Body of the `for` loop of `OriginalCacher::init`: the value written to slot `i`. -/
def OriginalCacher.init_slot (c : OriginalCacher) (i : Nat) : ℚ :=
  let offset : ℚ := if c._use_middle then 1 / 2 else 0
  c._cached_function (((i : ℚ) + offset) *
    ((c._input_range_end - c._input_range_start) / (c._size : ℚ)) +
    c._input_range_start)

/-- Largest value of the type `int`. -/
def INT_MAX : Int := 2147483647

/-- Smallest value of the type `int`. -/
def INT_MIN : Int := -2147483648

/-- The table when the `for` loop of `OriginalCacher::init` has written slots
`0 .. _size - 1`, in order. -/
def OriginalCacher.init_loop (c : OriginalCacher) : OriginalCacher :=
  { c with _cache := (List.range c._size).map c.init_slot }

/-- The method `OriginalCacher::init`.  The counter `int i` of its loop is incremented up to
`_size`, which has to be a value of `int`: past `INT_MAX` the increment has no defined
result. -/
def OriginalCacher.init (c : OriginalCacher) : Option OriginalCacher :=
  if (c._size : Int) ≤ INT_MAX then some c.init_loop else none

/-- Conversion `(int)` of a `double`: truncation towards zero, with no defined result when
the truncated value is not a value of `int`. -/
def cast_int (q : ℚ) : Option Int :=
  let z : Int := if 0 ≤ q then ⌊q⌋ else ⌈q⌉
  if INT_MIN ≤ z ∧ z ≤ INT_MAX then some z else none

/-- Index computed by `OriginalCacher::retrieve`, in exact arithmetic. -/
def OriginalCacher.retrieve_ind (c : OriginalCacher) (input : ℚ) : Option Int :=
  cast_int ((input - c._input_range_start) /
    ((c._input_range_end - c._input_range_start) / (c._size : ℚ)))

/-- The method `OriginalCacher::retrieve`, as a state transformer on the table: the value read
(`none` when the index is not defined or is outside the array) and the table after the
call. -/
def OriginalCacher.retrieve (c : OriginalCacher) (input : ℚ) : Option ℚ × OriginalCacher :=
  match c.retrieve_ind input with
  | some ind => (if 0 ≤ ind then c._cache[ind.toNat]? else none, c)
  | none => (none, c)

/-- Nearest integer to `q`, the even one of the two when `q` is half way between them. -/
def round_half_even (q : ℚ) : Int :=
  let n : Int := ⌊q⌋
  if q - n < 1 / 2 then n
  else if 1 / 2 < q - n then n + 1
  else if n % 2 = 0 then n else n + 1

/-- Rounding to the nearest `double` (IEEE 754 binary64, round to nearest, ties to even):
a number with `2 ^ e ≤ |q| < 2 ^ (e + 1)` is rounded to a multiple of `2 ^ (e - 52)`, which
leaves 53 significant bits.  The exponent is not bounded: overflow and subnormal numbers are
not modelled. -/
def round_double (q : ℚ) : ℚ :=
  if q = 0 then 0
  else
    let e : Int := Int.log 2 |q|
    (round_half_even (q / 2 ^ (e - 52)) : ℚ) * 2 ^ (e - 52)

/-- Index computed by `OriginalCacher::retrieve` in `double` arithmetic: the two subtractions,
the conversion of `_size` and the two divisions are each rounded. -/
def OriginalCacher.retrieve_ind_double (c : OriginalCacher) (input : ℚ) : Option Int :=
  cast_int (round_double (round_double (input - c._input_range_start) /
    round_double (round_double (c._input_range_end - c._input_range_start) /
      round_double (c._size : ℚ))))

/-- The method `OriginalCacher::get_size`. -/
def OriginalCacher.get_size (c : OriginalCacher) : Nat :=
  c._size

/-! ## smart_cacher.cpp -/

/-- Fields of `SmartCacher` (with those inherited from `Cacher`). -/
structure SmartCacher where
  _input_range_start : ℚ
  _input_range_end : ℚ
  _cached_function : ℚ → ℚ
  _granularity : ℚ
  _max_grad_error : ℚ
  _est_max_cache_size : Nat
  _avg_function : List ℚ → ℚ
  _use_middle : Bool
  _cache : List (List ℚ)
  _num_buckets : Nat
  _bucket_sizes : List Nat
  _bucket_granularities : List ℚ
  _bucket_walls : List ℚ
  _fst_x_value : ℚ
  _last_x_value : ℚ
  _actual_cache_size : Nat

/-- Constructor of `SmartCacher`: only the passed in parameters are set. -/
def SmartCacher.new (est_max_cache_size : Nat) (cached_function : ℚ → ℚ)
    (fst_input last_input granularity max_grad_error : ℚ)
    (avg : List ℚ → ℚ) (use_middle : Bool) : SmartCacher :=
  { _input_range_start := fst_input, _input_range_end := last_input,
    _cached_function := cached_function, _granularity := granularity,
    _max_grad_error := max_grad_error, _est_max_cache_size := est_max_cache_size,
    _avg_function := avg, _use_middle := use_middle,
    _cache := [], _num_buckets := 0, _bucket_sizes := [], _bucket_granularities := [],
    _bucket_walls := [], _fst_x_value := 0, _last_x_value := 0, _actual_cache_size := 0 }

/-- The static method `SmartCacher::belongs_in_bucket`. -/
def belongs_in_bucket (bucket : List ℚ) (avg : List ℚ → ℚ) (grad max_error : ℚ) : Bool :=
  if bucket.isEmpty then true
  else
    let bucket_avg := avg bucket
    decide (|grad - bucket_avg| < max_error)

/-- Local variables of the first part of `SmartCacher::init`. -/
structure SegState where
  buckets : List (List ℚ)
  est_bucket_walls : List ℚ
  stored_ys : List ℚ
  curr_x : ℚ

/-- State of the first part of `init` on entry to its `while` loop. -/
def seg_start (c : SmartCacher) : SegState :=
  { buckets := [[]],
    est_bucket_walls := [c._input_range_start],
    stored_ys := [c._cached_function c._input_range_start],
    curr_x := c._input_range_start + c._granularity }

/-- Body of the probe loop `while (curr_x <= _input_range_end)`. -/
def seg_step (c : SmartCacher) (s : SegState) : SegState :=
  let curr_y := c._cached_function s.curr_x
  let grad := curr_y - s.stored_ys.getLastD 0
  let curr_bucket := s.buckets.getLastD []
  if belongs_in_bucket curr_bucket c._avg_function grad c._max_grad_error then
    { buckets := s.buckets.dropLast ++ [curr_bucket ++ [grad]],
      est_bucket_walls := s.est_bucket_walls,
      stored_ys := s.stored_ys ++ [curr_y],
      curr_x := s.curr_x + c._granularity }
  else
    { buckets := s.buckets ++ [[grad]],
      est_bucket_walls := s.est_bucket_walls ++ [s.curr_x],
      stored_ys := s.stored_ys ++ [curr_y],
      curr_x := s.curr_x + c._granularity }

/-- The probe loop, run for at most `fuel` tests of its condition; `none` when the loop is
still running after that. -/
def seg_loop (c : SmartCacher) : Nat → SegState → Option SegState
  | 0, _ => none
  | fuel + 1, s =>
    if s.curr_x ≤ c._input_range_end then seg_loop c fuel (seg_step c s) else some s

/-- The control variable `curr_x` of the probe loop in `double` arithmetic, at the `n`-th test
of the loop condition `curr_x <= _input_range_end`: it is set to `start + granularity` (l.94)
and each iteration adds `granularity` to it (l.116), both additions rounded; no other
statement assigns to it.  The loop is left at the first `n` whose value exceeds the domain
end. -/
def curr_x_double (c : SmartCacher) : Nat → ℚ
  | 0 => round_double (c._input_range_start + c._granularity)
  | n + 1 => round_double (curr_x_double c n + c._granularity)

/-- Quotient in exact arithmetic: no value when the divisor is zero. -/
def safe_div (a b : ℚ) : Option ℚ :=
  if b = 0 then none else some (a / b)

/-- Roughness weight of bucket `i`, `abs_dy / abs_dx`. -/
def weight (c : SmartCacher) (est_bucket_walls : List ℚ) (i : Nat) : Option ℚ :=
  let abs_dx := |est_bucket_walls.getD (i + 1) 0 - est_bucket_walls.getD i 0|
  let abs_dy := |c._cached_function (est_bucket_walls.getD i 0) -
    c._cached_function (est_bucket_walls.getD (i + 1) 0)|
  safe_div abs_dy abs_dx

/-- The vector `abs_dy_dx_per_bucket` after the roughness loop. -/
def abs_dy_dx_per_bucket (c : SmartCacher) (est_bucket_walls : List ℚ) (num_buckets : Nat) :
    List (Option ℚ) :=
  (List.range num_buckets).map (weight c est_bucket_walls)

/-- Sum of two values, not a number as soon as one of them is. -/
def nan_add (a b : Option ℚ) : Option ℚ :=
  match a, b with
  | some x, some y => some (x + y)
  | _, _ => none

/-- The accumulator `sum_of_dy_dxs` after the roughness loop. -/
def sum_of_dy_dxs (weights : List (Option ℚ)) : Option ℚ :=
  weights.foldl nan_add (some 0)

/-- The blended estimate `raw_est` of bucket `bucket_ind`, after the division by `2.0`. -/
def raw_est (c : SmartCacher) (est_bucket_walls : List ℚ) (weights : List (Option ℚ))
    (sum : Option ℚ) (bucket_ind : Nat) : Option ℚ :=
  match weights.getD bucket_ind none, sum with
  | some w, some s =>
    match safe_div w s,
      safe_div ((c._est_max_cache_size : ℚ) *
          (est_bucket_walls.getD (bucket_ind + 1) 0 - est_bucket_walls.getD bucket_ind 0))
        (c._input_range_end - c._input_range_start) with
    | some share, some width_share =>
      some (((c._est_max_cache_size : ℚ) * share + width_share) / 2)
    | _, _ => none
  | _, _ => none

/-- Conversion `static_cast<size_t>` of the estimate: truncation, or `nan_cast` when the
estimate is not a number. -/
def cast_size_t (nan_cast : Nat) (r : Option ℚ) : Nat :=
  match r with
  | some q => ⌊q⌋₊
  | none => nan_cast

/-- The constant `safety` of the allocation loop. -/
def safety : Nat := 2

/-- The constant `min_bucket_size` of the allocation loop. -/
def min_bucket_size : Nat := 2

/-- The count `est_num_elems_for_bucket` of bucket `bucket_ind`. -/
def est_num_elems_for_bucket (c : SmartCacher) (nan_cast : Nat) (est_bucket_walls : List ℚ)
    (num_buckets bucket_ind : Nat) : Nat :=
  let weights := abs_dy_dx_per_bucket c est_bucket_walls num_buckets
  max min_bucket_size
    (cast_size_t nan_cast (raw_est c est_bucket_walls weights (sum_of_dy_dxs weights) bucket_ind))

/-- Whether every quotient of the roughness and allocation loops has a value: the weights
`abs_dy / abs_dx` and the blended estimates, whose divisors are `sum_of_dy_dxs` and the
domain width. -/
def divisions_defined (c : SmartCacher) (est_bucket_walls : List ℚ) (num_buckets : Nat) : Bool :=
  let weights := abs_dy_dx_per_bucket c est_bucket_walls num_buckets
  (List.range num_buckets).all fun i =>
    (weight c est_bucket_walls i).isSome &&
      (raw_est c est_bucket_walls weights (sum_of_dy_dxs weights) i).isSome

/-- The stride `bucket_granularity` of bucket `bucket_ind`: its nominal width divided by its
estimated count. -/
def bucket_stride (c : SmartCacher) (nan_cast : Nat) (est_bucket_walls : List ℚ)
    (num_buckets bucket_ind : Nat) : ℚ :=
  let fst_bucket_elem := est_bucket_walls.getD bucket_ind 0
  let last_bucket_elem := est_bucket_walls.getD (bucket_ind + 1) 0
  (last_bucket_elem - fst_bucket_elem) /
    (est_num_elems_for_bucket c nan_cast est_bucket_walls num_buckets bucket_ind : ℚ)

/-- Local variables of the sampling loop of one bucket. -/
structure FillState where
  curr_key : ℚ
  actual_bucket_elems : Nat
  bucket : List ℚ

/-- The sampling loop `while (curr_key <= last_bucket_elem)` of one bucket, run for at most
`fuel` tests of its condition. -/
def fill_loop (f : ℚ → ℚ) (offset bucket_granularity last_bucket_elem : ℚ) :
    Nat → FillState → Option FillState
  | 0, _ => none
  | fuel + 1, s =>
    if s.curr_key ≤ last_bucket_elem then
      fill_loop f offset bucket_granularity last_bucket_elem fuel
        { curr_key := s.curr_key + bucket_granularity,
          actual_bucket_elems := s.actual_bucket_elems + 1,
          bucket := s.bucket ++ [f (s.curr_key + offset * bucket_granularity)] }
    else some s

/-- The statement `if (curr_key > last_bucket_elem)` after the sampling loop: one more sample,
taken at `curr_key`. -/
def extend_past (f : ℚ → ℚ) (last_bucket_elem : ℚ) (s : FillState) : FillState :=
  if s.curr_key > last_bucket_elem then
    { curr_key := s.curr_key,
      actual_bucket_elems := s.actual_bucket_elems + 1,
      bucket := s.bucket ++ [f s.curr_key] }
  else s

/-- What one iteration of the allocation loop records for its bucket. -/
structure BucketData where
  allocated : Nat
  low_wall : ℚ
  high_wall : ℚ
  bucket : List ℚ
  actual_bucket_elems : Nat
  bucket_granularity : ℚ

/-- Ways in which `init` does not return: `new` throws, the stride assertion fails, or a loop
is still running when the iteration bound is used up. -/
inductive InitFault where
  | allocationFailed
  | assertionFailed
  | outOfFuel
deriving DecidableEq, Repr

/-- Largest number of elements of type `double` (8 bytes) in one array: the size of the array
in bytes is a value of `size_t`.  For a longer array `new` throws
`std::bad_array_new_length`. -/
def max_array_len : Nat := (2 ^ 64 - 1) / 8

/-- Body of the allocation loop for bucket `bucket_ind`, given that its array of
`est_num_elems_for_bucket + safety` samples has been allocated (l.168-169, the step that
`alloc_bucket` puts in front): the stride and its assertion, the sampling loop and the
statement after it; `allocated` records the length of the array. -/
def build_bucket (c : SmartCacher) (nan_cast : Nat) (est_bucket_walls : List ℚ)
    (num_buckets fuel bucket_ind : Nat) : Except InitFault BucketData :=
  let est := est_num_elems_for_bucket c nan_cast est_bucket_walls num_buckets bucket_ind
  let fst_bucket_elem := est_bucket_walls.getD bucket_ind 0
  let last_bucket_elem := est_bucket_walls.getD (bucket_ind + 1) 0
  let bucket_granularity := bucket_stride c nan_cast est_bucket_walls num_buckets bucket_ind
  if bucket_granularity > 0 then
    let offset : ℚ := if c._use_middle then 1 / 2 else 0
    match fill_loop c._cached_function offset bucket_granularity last_bucket_elem fuel
        { curr_key := fst_bucket_elem, actual_bucket_elems := 0, bucket := [] } with
    | none => .error .outOfFuel
    | some s =>
      let s1 := extend_past c._cached_function last_bucket_elem s
      .ok { allocated := est + safety,
            low_wall := fst_bucket_elem,
            high_wall := s1.curr_key,
            bucket := s1.bucket,
            actual_bucket_elems := s1.actual_bucket_elems,
            bucket_granularity := bucket_granularity }
  else .error .assertionFailed

/-- One iteration of the allocation loop, for bucket `bucket_ind` (l.158-200): the array of
`est_num_elems_for_bucket + safety` samples is allocated first (l.168-169), and when that
length is more than an array can have `new` throws before the stride is computed and
asserted; otherwise the statements of `build_bucket` follow. -/
def alloc_bucket (c : SmartCacher) (nan_cast : Nat) (est_bucket_walls : List ℚ)
    (num_buckets fuel bucket_ind : Nat) : Except InitFault BucketData :=
  if est_num_elems_for_bucket c nan_cast est_bucket_walls num_buckets bucket_ind + safety ≤
      max_array_len then
    build_bucket c nan_cast est_bucket_walls num_buckets fuel bucket_ind
  else .error .allocationFailed

/-- The allocation loop over the bucket indices, in order; it stops at the first bucket whose
body does not return. -/
def alloc_loop (body : Nat → Except InitFault BucketData) :
    List Nat → Except InitFault (List BucketData)
  | [] => .ok []
  | i :: rest =>
    match body i with
    | .error e => .error e
    | .ok b =>
      match alloc_loop body rest with
      | .error e => .error e
      | .ok bs => .ok (b :: bs)

/-- The walls `est_bucket_walls` and the number of buckets after the first part of `init`. -/
def segmentation (c : SmartCacher) (fuel : Nat) : Option (List ℚ × Nat) :=
  match seg_loop c fuel (seg_start c) with
  | none => none
  | some s => some (s.est_bucket_walls ++ [c._input_range_end], s.buckets.length)

/-- The method `SmartCacher::init`. -/
def SmartCacher.init (c : SmartCacher) (nan_cast fuel : Nat) : Except InitFault SmartCacher :=
  match segmentation c fuel with
  | none => .error .outOfFuel
  | some (est_bucket_walls, num_buckets) =>
    match alloc_loop (alloc_bucket c nan_cast est_bucket_walls num_buckets fuel)
        (List.range num_buckets) with
    | .error e => .error e
    | .ok bs =>
      .ok { c with
            _fst_x_value := c._input_range_start,
            _last_x_value := c._input_range_end,
            _num_buckets := num_buckets,
            _cache := bs.map (fun b => b.bucket),
            _bucket_sizes := bs.map (fun b => b.actual_bucket_elems),
            _bucket_granularities := bs.map (fun b => b.bucket_granularity),
            _bucket_walls := bs.flatMap (fun b => [b.low_wall, b.high_wall]),
            _actual_cache_size := bs.foldl (fun acc b => acc + b.actual_bucket_elems) 0 }

/-- Subtraction of two `size_t` values: wraps around modulo `2 ^ 64` when negative. -/
def size_t_sub (a b : Nat) : Nat :=
  if b ≤ a then a - b else a + 2 ^ 64 - b

/-- Local variables of `SmartCacher::retrieve`; `wrapped` is a ghost flag, raised when
`mid_bucket - 1` is taken at `mid_bucket = 0`. -/
structure SearchState where
  leftmost_bucket : Nat
  rightmost_bucket : Nat
  found_bucket : Nat
  found : Bool
  smallest : ℚ
  biggest : ℚ
  wrapped : Bool

/-- Ways in which `retrieve` reads outside an array, or keeps searching. -/
inductive RetrieveFault where
  | wallOutOfRange
  | bucketOutOfRange
  | sampleOutOfRange
  | outOfFuel
deriving DecidableEq, Repr

/-- State on entry to the search loop of `retrieve`. -/
def search_start (t : SmartCacher) : SearchState :=
  { leftmost_bucket := 0, rightmost_bucket := size_t_sub t._num_buckets 1,
    found_bucket := 0, found := false, smallest := 0, biggest := 0, wrapped := false }

/-- Body of the loop `while (!found)` of `retrieve`. -/
def search_step (t : SmartCacher) (key : ℚ) (s : SearchState) :
    Except RetrieveFault SearchState :=
  let mid_bucket := s.leftmost_bucket + size_t_sub s.rightmost_bucket s.leftmost_bucket / 2
  match t._bucket_walls[2 * mid_bucket]?, t._bucket_walls[2 * mid_bucket + 1]? with
  | some smallest, some biggest =>
    if smallest ≤ key ∧ biggest ≥ key then
      .ok { s with found := true, found_bucket := mid_bucket,
                   smallest := smallest, biggest := biggest }
    else if key > biggest then
      .ok { s with leftmost_bucket := mid_bucket + 1,
                   smallest := smallest, biggest := biggest }
    else
      .ok { s with rightmost_bucket := size_t_sub mid_bucket 1,
                   smallest := smallest, biggest := biggest,
                   wrapped := s.wrapped || decide (mid_bucket = 0) }
  | _, _ => .error .wallOutOfRange

/-- The loop `while (!found)`, run for at most `fuel` iterations. -/
def search_loop (t : SmartCacher) (key : ℚ) : Nat → SearchState →
    Except RetrieveFault SearchState
  | 0, s => if s.found then .ok s else .error .outOfFuel
  | fuel + 1, s =>
    if s.found then .ok s
    else
      match search_step t key s with
      | .error e => .error e
      | .ok s1 => search_loop t key fuel s1

/-- Index into the found bucket computed by `retrieve`. -/
def minibucket_ind (key smallest bucket_granularity : ℚ) : Nat :=
  ⌊(key - smallest) / bucket_granularity⌋₊

/-- The method `SmartCacher::retrieve`, as a state transformer on the table: the value read
(or the fault) and the table after the call. -/
def SmartCacher.retrieve (t : SmartCacher) (key : ℚ) (fuel : Nat) :
    Except RetrieveFault ℚ × SmartCacher :=
  match search_loop t key fuel (search_start t) with
  | .error e => (.error e, t)
  | .ok s =>
    match t._cache[s.found_bucket]?, t._bucket_granularities[s.found_bucket]? with
    | some bucket, some bucket_granularity =>
      match bucket[minibucket_ind key s.smallest bucket_granularity]? with
      | some v => (.ok v, t)
      | none => (.error .sampleOutOfRange, t)
    | _, _ => (.error .bucketOutOfRange, t)

/-- The method `SmartCacher::get_size`. -/
def SmartCacher.get_size (t : SmartCacher) : Nat :=
  t._actual_cache_size


/-! ## Example tables -/

/-- The identity on `[0, 1]`, probed with step `1`, target capacity `0`, samples at cell starts. -/
def ex_cfg : SmartCacher :=
  SmartCacher.new 0 (fun x => x) 0 1 1 1 avg_function false

/-- The table that `init` builds from `ex_cfg`: one bucket of stride `1 / 2`. -/
def ex_table : SmartCacher :=
  { ex_cfg with
    _fst_x_value := 0, _last_x_value := 1, _num_buckets := 1,
    _cache := [[0, 1 / 2, 1, 3 / 2]], _bucket_sizes := [4],
    _bucket_granularities := [1 / 2], _bucket_walls := [0, 3 / 2],
    _actual_cache_size := 4 }

/-- A function that is flat up to `1 / 2` and then rises with slope `1`. -/
def ex_ramp (x : ℚ) : ℚ :=
  if x ≤ 1 / 2 then 0 else x - 1 / 2

/-- The ramp on `[0, 1]`, probed with step `1 / 4`, tolerance `1 / 10`, target capacity `0`,
samples at cell middles. -/
def ex2_cfg : SmartCacher :=
  SmartCacher.new 0 ex_ramp 0 1 (1 / 4) (1 / 10) avg_function true

/-- The table that `init` builds from `ex2_cfg`: two buckets, of strides `3 / 8` and `1 / 8`. -/
def ex2_table : SmartCacher :=
  { ex2_cfg with
    _fst_x_value := 0, _last_x_value := 1, _num_buckets := 2,
    _cache := [[0, 1 / 16, 7 / 16, 5 / 8], [5 / 16, 7 / 16, 9 / 16, 5 / 8]],
    _bucket_sizes := [4, 4],
    _bucket_granularities := [3 / 8, 1 / 8], _bucket_walls := [0, 9 / 8, 3 / 4, 9 / 8],
    _actual_cache_size := 8 }

/-- The identity on `[0, 1]` in a uniform table with one slot, before `init`. -/
def ex_uniform : OriginalCacher :=
  OriginalCacher.new 1 (fun x => x) 0 1 false

/-- The identity on `[0, 1]` in a uniform table with four slots filled at cell middles, before
`init`. -/
def ex_uniform4 : OriginalCacher :=
  OriginalCacher.new 4 (fun x => x) 0 1 true

/-- The identity on `[0, 1]` in a uniform table with three slots filled at cell starts, before
`init`. -/
def ex_uniform3 : OriginalCacher :=
  OriginalCacher.new 3 (fun x => x) 0 1 false

/-- The identity on `[0, 1]` in a uniform table with `2 ^ 31 + 1` slots, one more than the
counter `int i` of `init` can count, before `init`. -/
def ex_uniform_wide : OriginalCacher :=
  OriginalCacher.new (2 ^ 31 + 1) (fun x => x) 0 1 false

/-- The constant function `0` on `[0, 1]`, probed with step `1`, tolerance `1`. -/
def ex_flat : SmartCacher :=
  SmartCacher.new 4 (fun _ => 0) 0 1 1 1 avg_function false

/-- The identity on `[0, 1]` with probe step `0`. -/
def ex_stuck : SmartCacher :=
  SmartCacher.new 4 (fun x => x) 0 1 0 1 avg_function false

/-- The constant function `0` on `[10 ^ 16, 2 * 10 ^ 16]`, probed with step `1`: the spacing
of the `double`s from `10 ^ 16` on is `2`. -/
def ex_far : SmartCacher :=
  SmartCacher.new 0 (fun _ => 0) (10 ^ 16) (2 * 10 ^ 16) 1 1 avg_function false

theorem fill_loop_spec (f : ℚ → ℚ) (offset g last : ℚ) :
    ∀ (fuel : Nat) (s r : FillState), fill_loop f offset g last fuel s = some r →
      ∃ m : Nat, r.curr_key = s.curr_key + (m : ℚ) * g ∧
        r.actual_bucket_elems = s.actual_bucket_elems + m ∧
        r.bucket.length = s.bucket.length + m ∧
        last < r.curr_key ∧ (s.curr_key ≤ last → 1 ≤ m) := by
  intro fuel
  induction fuel with
  | zero => intro s r h; simp [fill_loop] at h
  | succ n ih =>
    intro s r h
    rw [fill_loop] at h
    split at h
    · rename_i hle
      obtain ⟨m, h1, h2, h3, h4, _⟩ := ih _ _ h
      simp only [List.length_append, List.length_singleton] at h1 h2 h3
      refine ⟨m + 1, ?_, ?_, ?_, h4, fun _ => by omega⟩
      · rw [h1]; push_cast; ring
      · rw [h2]; omega
      · rw [h3]; omega
    · rename_i hgt
      injection h with h
      subst h
      exact ⟨0, by simp, by simp, by simp, lt_of_not_le hgt, fun h => absurd h hgt⟩

theorem fill_loop_mono (f : ℚ → ℚ) (offset g last : ℚ) :
    ∀ (fuel : Nat) (s r : FillState), fill_loop f offset g last fuel s = some r →
      ∀ fuel1, fuel ≤ fuel1 → fill_loop f offset g last fuel1 s = some r := by
  intro fuel
  induction fuel with
  | zero => intro s r h; simp [fill_loop] at h
  | succ n ih =>
    intro s r h fuel1 hle
    obtain ⟨k, rfl⟩ : ∃ k, fuel1 = k + 1 := ⟨fuel1 - 1, by omega⟩
    rw [fill_loop] at h ⊢
    split
    · rename_i hc
      rw [if_pos hc] at h
      exact ih _ _ h k (by omega)
    · rename_i hc
      rw [if_neg hc] at h
      exact h

theorem fill_loop_terminates (f : ℚ → ℚ) (offset g last : ℚ) :
    ∀ (n : Nat) (s : FillState), last - s.curr_key < (n : ℚ) * g →
      ∀ fuel, n < fuel → ∃ r, fill_loop f offset g last fuel s = some r := by
  intro n
  induction n with
  | zero =>
    intro s hs fuel hfuel
    obtain ⟨k, rfl⟩ : ∃ k, fuel = k + 1 := ⟨fuel - 1, by omega⟩
    rw [fill_loop, if_neg (by simp at hs; linarith)]
    exact ⟨s, rfl⟩
  | succ n ih =>
    intro s hs fuel hfuel
    obtain ⟨k, rfl⟩ : ∃ k, fuel = k + 1 := ⟨fuel - 1, by omega⟩
    rw [fill_loop]
    split
    · apply ih _ _ k (by omega)
      show last - (s.curr_key + g) < (n : ℚ) * g
      push_cast at hs
      linarith
    · exact ⟨s, rfl⟩

theorem extend_past_spec (f : ℚ → ℚ) (last : ℚ) (s : FillState) (h : last < s.curr_key) :
    (extend_past f last s).curr_key = s.curr_key ∧
    (extend_past f last s).actual_bucket_elems = s.actual_bucket_elems + 1 ∧
    (extend_past f last s).bucket = s.bucket ++ [f s.curr_key] := by
  simp [extend_past, h]

theorem est_ge_two (c : SmartCacher) (nan_cast : Nat) (walls : List ℚ) (K i : Nat) :
    2 ≤ est_num_elems_for_bucket c nan_cast walls K i := by
  unfold est_num_elems_for_bucket min_bucket_size
  exact le_max_left _ _

theorem stride_pos_iff (c : SmartCacher) (nan_cast : Nat) (walls : List ℚ) (K i : Nat) :
    0 < bucket_stride c nan_cast walls K i ↔ walls.getD i 0 < walls.getD (i + 1) 0 := by
  have hest : (0 : ℚ) < (est_num_elems_for_bucket c nan_cast walls K i : ℚ) := by
    have := est_ge_two c nan_cast walls K i
    exact_mod_cast (by omega : 0 < est_num_elems_for_bucket c nan_cast walls K i)
  unfold bucket_stride
  simp only []
  rw [div_pos_iff_of_pos_right hest, sub_pos]

theorem build_bucket_spec (c : SmartCacher) (nan_cast : Nat) (walls : List ℚ) (K fuel i : Nat)
    (b : BucketData) (h : build_bucket c nan_cast walls K fuel i = .ok b) :
    b.low_wall = walls.getD i 0 ∧
    b.bucket_granularity =
      (walls.getD (i + 1) 0 - walls.getD i 0) /
        (est_num_elems_for_bucket c nan_cast walls K i : ℚ) ∧
    0 < b.bucket_granularity ∧
    walls.getD i 0 < walls.getD (i + 1) 0 ∧
    walls.getD (i + 1) 0 < b.high_wall ∧
    b.allocated = est_num_elems_for_bucket c nan_cast walls K i + safety ∧
    ∃ m : Nat, 1 ≤ m ∧ b.high_wall = b.low_wall + (m : ℚ) * b.bucket_granularity ∧
      b.actual_bucket_elems = m + 1 ∧ b.bucket.length = m + 1 := by
  unfold build_bucket at h
  simp only [bucket_stride] at h
  split at h
  · rename_i hg
    have hest : (0 : ℚ) < (est_num_elems_for_bucket c nan_cast walls K i : ℚ) := by
      have := est_ge_two c nan_cast walls K i
      exact_mod_cast (by omega : 0 < est_num_elems_for_bucket c nan_cast walls K i)
    have hw : walls.getD i 0 < walls.getD (i + 1) 0 := by
      by_contra hcon
      push_neg at hcon
      have : (walls.getD (i + 1) 0 - walls.getD i 0) /
          (est_num_elems_for_bucket c nan_cast walls K i : ℚ) ≤ 0 :=
        div_nonpos_of_nonpos_of_nonneg (by linarith) hest.le
      linarith
    split at h
    · cases h
    · rename_i s hs
      obtain ⟨m, h1, h2, h3, h4, h5⟩ := fill_loop_spec _ _ _ _ _ _ _ hs
      obtain ⟨e1, e2, e3⟩ := extend_past_spec c._cached_function _ s h4
      injection h with h
      subst h
      simp only at h1 h2 h3 h5
      refine ⟨rfl, rfl, hg, hw, ?_, rfl, m, h5 hw.le, ?_, ?_, ?_⟩
      · show _ < (extend_past _ _ s).curr_key
        rw [e1]; exact h4
      · show (extend_past _ _ s).curr_key = _
        rw [e1]; exact h1
      · show (extend_past _ _ s).actual_bucket_elems = _
        rw [e2, h2]; omega
      · show (extend_past _ _ s).bucket.length = _
        rw [e3]; simp [h3]
  · cases h

theorem build_bucket_ok_of_fuel (c : SmartCacher) (nan_cast : Nat) (walls : List ℚ)
    (K i : Nat) (hpos : 0 < bucket_stride c nan_cast walls K i) :
    ∃ N b, ∀ fuel, N ≤ fuel → build_bucket c nan_cast walls K fuel i = .ok b := by
  obtain ⟨n, hn⟩ := exists_nat_gt
    ((walls.getD (i + 1) 0 - walls.getD i 0) / bucket_stride c nan_cast walls K i)
  rw [div_lt_iff₀ hpos] at hn
  obtain ⟨r, hr⟩ := fill_loop_terminates c._cached_function (if c._use_middle then 1 / 2 else 0)
    (bucket_stride c nan_cast walls K i) (walls.getD (i + 1) 0) n
    { curr_key := walls.getD i 0, actual_bucket_elems := 0, bucket := [] } hn (n + 1) (by omega)
  refine ⟨n + 1,
    { allocated := est_num_elems_for_bucket c nan_cast walls K i + safety,
      low_wall := walls.getD i 0,
      high_wall := (extend_past c._cached_function (walls.getD (i + 1) 0) r).curr_key,
      bucket := (extend_past c._cached_function (walls.getD (i + 1) 0) r).bucket,
      actual_bucket_elems :=
        (extend_past c._cached_function (walls.getD (i + 1) 0) r).actual_bucket_elems,
      bucket_granularity := bucket_stride c nan_cast walls K i }, fun fuel hfuel => ?_⟩
  unfold build_bucket
  simp only []
  rw [if_pos hpos, fill_loop_mono _ _ _ _ _ _ _ hr fuel hfuel]

theorem fill_loop_samples (f : ℚ → ℚ) (offset g last : ℚ) :
    ∀ (fuel : Nat) (s r : FillState), fill_loop f offset g last fuel s = some r →
      ∃ m : Nat, r.curr_key = s.curr_key + (m : ℚ) * g ∧
        r.actual_bucket_elems = s.actual_bucket_elems + m ∧
        r.bucket = s.bucket ++
          (List.range m).map (fun (j : Nat) => f (s.curr_key + (j : ℚ) * g + offset * g)) ∧
        last < r.curr_key ∧ ∀ j, j < m → s.curr_key + (j : ℚ) * g ≤ last := by
  intro fuel
  induction fuel with
  | zero => intro s r h; simp [fill_loop] at h
  | succ n ih =>
    intro s r h
    rw [fill_loop] at h
    split at h
    · rename_i hle
      obtain ⟨m, h1, h2, h3, h4, h5⟩ := ih _ _ h
      simp only [] at h1 h2 h3 h5
      refine ⟨m + 1, ?_, ?_, ?_, h4, ?_⟩
      · rw [h1]; push_cast; ring
      · rw [h2]; omega
      · rw [h3, List.range_succ_eq_map, List.map_cons, List.map_map, List.append_assoc]
        congr 1
        simp only [List.singleton_append, Nat.cast_zero, zero_mul, add_zero]
        congr 1
        apply List.map_congr_left
        intro j _
        simp only [Function.comp_apply, Nat.cast_succ]
        congr 1
        ring
      · intro j hj
        cases j with
        | zero => simpa using hle
        | succ k =>
          have := h5 k (by omega)
          push_cast
          linarith
    · rename_i hgt
      injection h with h
      subst h
      exact ⟨0, by simp, by simp, by simp, lt_of_not_le hgt, fun j hj => absurd hj (by omega)⟩

theorem build_bucket_exact (c : SmartCacher) (nan_cast : Nat) (walls : List ℚ) (K fuel i : Nat)
    (b : BucketData) (h : build_bucket c nan_cast walls K fuel i = .ok b) :
    0 < bucket_stride c nan_cast walls K i ∧
    b.bucket_granularity = bucket_stride c nan_cast walls K i ∧
    b.low_wall = walls.getD i 0 ∧
    b.allocated = est_num_elems_for_bucket c nan_cast walls K i + safety ∧
    b.actual_bucket_elems = est_num_elems_for_bucket c nan_cast walls K i + 2 ∧
    b.high_wall = walls.getD (i + 1) 0 + bucket_stride c nan_cast walls K i ∧
    b.high_wall = walls.getD i 0 +
      ((est_num_elems_for_bucket c nan_cast walls K i : ℚ) + 1) *
        bucket_stride c nan_cast walls K i ∧
    b.bucket = (List.range (est_num_elems_for_bucket c nan_cast walls K i + 1)).map
        (fun (j : Nat) => c._cached_function (walls.getD i 0 +
          (j : ℚ) * bucket_stride c nan_cast walls K i +
          (if c._use_middle then 1 / 2 else 0) * bucket_stride c nan_cast walls K i)) ++
      [c._cached_function (walls.getD i 0 +
        ((est_num_elems_for_bucket c nan_cast walls K i : ℚ) + 1) *
          bucket_stride c nan_cast walls K i)] := by
  have hest : (0 : ℚ) < (est_num_elems_for_bucket c nan_cast walls K i : ℚ) := by
    have := est_ge_two c nan_cast walls K i
    exact_mod_cast (by omega : 0 < est_num_elems_for_bucket c nan_cast walls K i)
  have hng : (est_num_elems_for_bucket c nan_cast walls K i : ℚ) *
      bucket_stride c nan_cast walls K i = walls.getD (i + 1) 0 - walls.getD i 0 := by
    unfold bucket_stride
    simp only []
    rw [mul_div_cancel₀ _ hest.ne']
  unfold build_bucket at h
  simp only [] at h
  split at h
  · rename_i hg
    split at h
    · cases h
    · rename_i s hs
      obtain ⟨m, h1, h2, h3, h4, h5⟩ := fill_loop_samples _ _ _ _ _ _ _ hs
      simp only [List.nil_append, zero_add] at h1 h2 h3 h5
      obtain ⟨e1, e2, e3⟩ := extend_past_spec c._cached_function _ s h4
      have hm : m = est_num_elems_for_bucket c nan_cast walls K i + 1 := by
        have hlt : (est_num_elems_for_bucket c nan_cast walls K i : ℚ) < (m : ℚ) := by
          rw [h1] at h4
          by_contra hcon
          push_neg at hcon
          nlinarith
        have hlt1 : est_num_elems_for_bucket c nan_cast walls K i < m := by exact_mod_cast hlt
        have hle := h5 (m - 1) (by omega)
        have hcast : ((m - 1 : Nat) : ℚ) = (m : ℚ) - 1 := by
          rw [Nat.cast_sub (by omega)]; simp
        rw [hcast] at hle
        have hle1 : (m : ℚ) - 1 ≤ (est_num_elems_for_bucket c nan_cast walls K i : ℚ) := by
          by_contra hcon
          push_neg at hcon
          nlinarith
        have hle2 : m ≤ est_num_elems_for_bucket c nan_cast walls K i + 1 := by
          have : (m : ℚ) ≤
              ((est_num_elems_for_bucket c nan_cast walls K i + 1 : Nat) : ℚ) := by
            push_cast; linarith
          exact_mod_cast this
        omega
      injection h with h
      subst h
      have hkey : s.curr_key = walls.getD i 0 +
          ((est_num_elems_for_bucket c nan_cast walls K i : ℚ) + 1) *
            bucket_stride c nan_cast walls K i := by
        rw [h1, hm]; push_cast; ring
      refine ⟨hg, rfl, rfl, rfl, ?_, ?_, ?_, ?_⟩
      · show (extend_past _ _ s).actual_bucket_elems = _
        rw [e2, h2, hm]
      · show (extend_past _ _ s).curr_key = _
        rw [e1, hkey]
        linarith
      · show (extend_past _ _ s).curr_key = _
        rw [e1, hkey]
      · show (extend_past _ _ s).bucket = _
        rw [e3, h3, hkey, hm]
  · cases h

/-! ## The allocation loop -/

theorem alloc_loop_spec (body : Nat → Except InitFault BucketData) :
    ∀ (l : List Nat) (bs : List BucketData), alloc_loop body l = .ok bs →
      bs.length = l.length ∧
      ∀ (j : Nat) (hj : j < l.length) (hb : j < bs.length),
        body (l.get ⟨j, hj⟩) = .ok (bs.get ⟨j, hb⟩) := by
  intro l
  induction l with
  | nil =>
    intro bs h
    simp [alloc_loop] at h
    subst h
    simp
  | cons i rest ih =>
    intro bs h
    rw [alloc_loop] at h
    split at h
    · cases h
    · rename_i b hb
      split at h
      · cases h
      · rename_i bs1 hbs
        injection h with h
        subst h
        obtain ⟨hl, hget⟩ := ih bs1 hbs
        refine ⟨by simp [hl], ?_⟩
        intro j hj hjb
        cases j with
        | zero => simpa using hb
        | succ k =>
          simp only [List.get_eq_getElem, List.getElem_cons_succ]
          have := hget k (by simpa using hj) (by simpa using hjb)
          simpa using this

theorem alloc_loop_range (body : Nat → Except InitFault BucketData) (K : Nat)
    (bs : List BucketData) (h : alloc_loop body (List.range K) = .ok bs) :
    bs.length = K ∧ ∀ (j : Nat) (hb : j < bs.length), body j = .ok (bs.get ⟨j, hb⟩) := by
  obtain ⟨hl, hget⟩ := alloc_loop_spec body _ bs h
  simp only [List.length_range] at hl
  refine ⟨hl, fun j hb => ?_⟩
  have := hget j (by simp; omega) hb
  simpa using this

theorem alloc_bucket_ok (c : SmartCacher) (nan_cast : Nat) (walls : List ℚ) (K fuel i : Nat)
    (b : BucketData) (h : alloc_bucket c nan_cast walls K fuel i = .ok b) :
    est_num_elems_for_bucket c nan_cast walls K i + safety ≤ max_array_len ∧
    build_bucket c nan_cast walls K fuel i = .ok b := by
  unfold alloc_bucket at h
  split at h
  · rename_i hfit
    exact ⟨hfit, h⟩
  · cases h

theorem alloc_bucket_good (c : SmartCacher) (nan_cast : Nat) (walls : List ℚ) (K fuel i : Nat)
    (b : BucketData) (h : alloc_bucket c nan_cast walls K fuel i = .ok b) :
    est_num_elems_for_bucket c nan_cast walls K i + safety ≤ max_array_len ∧
    0 < bucket_stride c nan_cast walls K i := by
  obtain ⟨hfit, hb⟩ := alloc_bucket_ok c nan_cast walls K fuel i b h
  obtain ⟨_, h2, h3, _⟩ := build_bucket_spec c nan_cast walls K fuel i b hb
  refine ⟨hfit, ?_⟩
  rw [h2] at h3
  exact h3

theorem alloc_bucket_ok_of_fuel (c : SmartCacher) (nan_cast : Nat) (walls : List ℚ)
    (K i : Nat)
    (hfit : est_num_elems_for_bucket c nan_cast walls K i + safety ≤ max_array_len)
    (hpos : 0 < bucket_stride c nan_cast walls K i) :
    ∃ N b, ∀ fuel, N ≤ fuel → alloc_bucket c nan_cast walls K fuel i = .ok b := by
  obtain ⟨N, b, hb⟩ := build_bucket_ok_of_fuel c nan_cast walls K i hpos
  refine ⟨N, b, fun fuel hfuel => ?_⟩
  unfold alloc_bucket
  rw [if_pos hfit, hb fuel hfuel]

theorem alloc_loop_ok_of_fuel (c : SmartCacher) (nan_cast : Nat) (walls : List ℚ) (K : Nat) :
    ∀ l : List Nat,
      (∀ i ∈ l, est_num_elems_for_bucket c nan_cast walls K i + safety ≤ max_array_len ∧
        0 < bucket_stride c nan_cast walls K i) →
      ∃ N bs, ∀ fuel, N ≤ fuel →
        alloc_loop (alloc_bucket c nan_cast walls K fuel) l = .ok bs := by
  intro l
  induction l with
  | nil => intro _; exact ⟨0, [], fun _ _ => rfl⟩
  | cons i rest ih =>
    intro hall
    obtain ⟨hfit, hpos⟩ := hall i (List.mem_cons_self _ _)
    obtain ⟨N1, b, hb⟩ := alloc_bucket_ok_of_fuel c nan_cast walls K i hfit hpos
    obtain ⟨N2, bs, hbs⟩ := ih fun j hj => hall j (List.mem_cons_of_mem _ hj)
    refine ⟨max N1 N2, b :: bs, fun fuel hfuel => ?_⟩
    rw [alloc_loop, hb fuel (le_trans (le_max_left _ _) hfuel),
      hbs fuel (le_trans (le_max_right _ _) hfuel)]

theorem walls_flat_length (bs : List BucketData) :
    (bs.flatMap (fun b => [b.low_wall, b.high_wall])).length = 2 * bs.length := by
  induction bs with
  | nil => simp
  | cons b rest ih => simp [List.flatMap_cons, ih]; omega

theorem walls_flat_get (bs : List BucketData) :
    ∀ (i : Nat) (hi : i < bs.length),
      (bs.flatMap (fun b => [b.low_wall, b.high_wall]))[2 * i]? =
        some (bs.get ⟨i, hi⟩).low_wall ∧
      (bs.flatMap (fun b => [b.low_wall, b.high_wall]))[2 * i + 1]? =
        some (bs.get ⟨i, hi⟩).high_wall := by
  induction bs with
  | nil => intro i hi; simp at hi
  | cons b rest ih =>
    intro i hi
    cases i with
    | zero => simp [List.flatMap_cons]
    | succ k =>
      have hk : k < rest.length := by simpa using hi
      obtain ⟨h1, h2⟩ := ih k hk
      have e1 : 2 * (k + 1) = (2 * k) + 1 + 1 := by ring
      have e2 : 2 * (k + 1) + 1 = (2 * k + 1) + 1 + 1 := by ring
      constructor
      · rw [e1]; simpa [List.flatMap_cons] using h1
      · rw [e2]; simpa [List.flatMap_cons] using h2

theorem foldl_sizes (bs : List BucketData) :
    ∀ acc : Nat, bs.foldl (fun acc b => acc + b.actual_bucket_elems) acc =
      acc + (bs.map (fun b => b.actual_bucket_elems)).sum := by
  induction bs with
  | nil => intro acc; simp
  | cons b rest ih => intro acc; simp [ih]; omega

theorem walls_chain (w : Nat → ℚ) (K : Nat) (h : ∀ i, i < K → w i < w (i + 1)) :
    ∀ j, 1 ≤ j → j ≤ K → w 0 < w j := by
  intro j
  induction j with
  | zero => intro h1 _; omega
  | succ n ih =>
    intro _ hn
    rcases Nat.eq_zero_or_pos n with h0 | h0
    · subst h0
      exact h 0 (by omega)
    · exact lt_trans (ih h0 (by omega)) (h n (by omega))

/-! ## The quotients of the estimate -/

theorem nan_add_foldl_some (l : List (Option ℚ)) (hl : ∀ o ∈ l, ∃ q : ℚ, o = some q) :
    ∀ a : ℚ, ∃ s : ℚ, l.foldl nan_add (some a) = some s := by
  induction l with
  | nil => intro a; exact ⟨a, rfl⟩
  | cons o rest ih =>
    intro a
    obtain ⟨q, rfl⟩ := hl o (List.mem_cons_self _ _)
    rw [List.foldl_cons]
    exact ih (fun o1 ho1 => hl o1 (List.mem_cons_of_mem _ ho1)) (a + q)

theorem weights_getD (c : SmartCacher) (walls : List ℚ) (K i : Nat) (hi : i < K) :
    (abs_dy_dx_per_bucket c walls K).getD i none = weight c walls i := by
  unfold abs_dy_dx_per_bucket
  rw [List.getD_eq_getElem?_getD, List.getElem?_map, List.getElem?_range hi]
  rfl

theorem weight_defined (c : SmartCacher) (walls : List ℚ) (i : Nat)
    (hw : walls.getD i 0 < walls.getD (i + 1) 0) : ∃ q : ℚ, weight c walls i = some q := by
  unfold weight safe_div
  simp only []
  rw [if_neg (by rw [abs_eq_zero]; linarith)]
  exact ⟨_, rfl⟩

theorem divisions_defined_of_widths (c : SmartCacher) (walls : List ℚ) (K : Nat)
    (hse : c._input_range_start < c._input_range_end)
    (hw : ∀ i, i < K → walls.getD i 0 < walls.getD (i + 1) 0)
    (hsum : sum_of_dy_dxs (abs_dy_dx_per_bucket c walls K) ≠ some 0) :
    divisions_defined c walls K = true := by
  obtain ⟨s, hs⟩ := nan_add_foldl_some (abs_dy_dx_per_bucket c walls K) (by
    intro o ho
    unfold abs_dy_dx_per_bucket at ho
    rw [List.mem_map] at ho
    obtain ⟨i, hi, rfl⟩ := ho
    exact weight_defined c walls i (hw i (List.mem_range.mp hi))) 0
  have hs1 : sum_of_dy_dxs (abs_dy_dx_per_bucket c walls K) = some s := hs
  have hs0 : s ≠ 0 := by
    intro h0
    rw [hs1, h0] at hsum
    exact hsum rfl
  unfold divisions_defined
  simp only [List.all_eq_true, List.mem_range, Bool.and_eq_true]
  intro i hi
  obtain ⟨q, hq⟩ := weight_defined c walls i (hw i hi)
  refine ⟨by rw [hq]; rfl, ?_⟩
  unfold raw_est
  rw [weights_getD c walls K i hi, hq, hs1]
  simp only [safe_div, if_neg hs0,
    if_neg (show c._input_range_end - c._input_range_start ≠ 0 by linarith)]
  rfl

theorem raw_est_zero_capacity (c : SmartCacher) (hc : c._est_max_cache_size = 0)
    (walls : List ℚ) (ws : List (Option ℚ)) (sum : Option ℚ) (i : Nat) :
    cast_size_t 0 (raw_est c walls ws sum i) = 0 := by
  unfold raw_est cast_size_t
  split
  · rename_i q hq
    split at hq
    · split at hq
      · rename_i share width_share hs hws
        injection hq with hq
        have hw0 : width_share = 0 := by
          unfold safe_div at hws
          split at hws
          · cases hws
          · injection hws with hws
            rw [← hws, hc]
            simp
        rw [← hq, hc, hw0]
        simp
      · cases hq
    · cases hq
  · rfl

theorem weight_value (c : SmartCacher) (walls : List ℚ) (i : Nat)
    (hw : walls.getD (i + 1) 0 ≠ walls.getD i 0) :
    weight c walls i = some (|c._cached_function (walls.getD i 0) -
      c._cached_function (walls.getD (i + 1) 0)| / |walls.getD (i + 1) 0 - walls.getD i 0|) := by
  unfold weight safe_div
  simp only []
  rw [if_neg (by rw [abs_eq_zero, sub_eq_zero]; exact hw)]

theorem sum_of_dy_dxs_value (c : SmartCacher) (walls : List ℚ) (w : Nat → ℚ) :
    ∀ K : Nat, (∀ j, j < K → weight c walls j = some (w j)) →
      sum_of_dy_dxs (abs_dy_dx_per_bucket c walls K) = some (∑ j in Finset.range K, w j) := by
  intro K
  induction K with
  | zero => intro _; rfl
  | succ n ih =>
    intro hw
    have h1 := ih fun j hj => hw j (by omega)
    unfold sum_of_dy_dxs abs_dy_dx_per_bucket at h1 ⊢
    rw [List.range_succ, List.map_append, List.foldl_append, h1]
    simp only [List.map_cons, List.map_nil, List.foldl_cons, List.foldl_nil]
    rw [hw n (by omega), Finset.sum_range_succ]
    rfl

theorem raw_est_value (c : SmartCacher) (walls : List ℚ) (w : Nat → ℚ) (K i : Nat)
    (hi : i < K)
    (hw : ∀ j, j < K → weight c walls j = some (w j))
    (hW : ∑ j in Finset.range K, w j ≠ 0)
    (hD : c._input_range_end - c._input_range_start ≠ 0) :
    raw_est c walls (abs_dy_dx_per_bucket c walls K)
      (sum_of_dy_dxs (abs_dy_dx_per_bucket c walls K)) i =
    some (((c._est_max_cache_size : ℚ) * (w i / ∑ j in Finset.range K, w j) +
      (c._est_max_cache_size : ℚ) * (walls.getD (i + 1) 0 - walls.getD i 0) /
        (c._input_range_end - c._input_range_start)) / 2) := by
  unfold raw_est
  rw [weights_getD c walls K i hi, hw i hi, sum_of_dy_dxs_value c walls w K hw]
  simp only [safe_div, if_neg hW, if_neg hD]

theorem est_value (c : SmartCacher) (nan_cast : Nat) (walls : List ℚ) (w : Nat → ℚ)
    (K i : Nat) (hi : i < K)
    (hw : ∀ j, j < K → weight c walls j = some (w j))
    (hW : ∑ j in Finset.range K, w j ≠ 0)
    (hD : c._input_range_end - c._input_range_start ≠ 0) :
    est_num_elems_for_bucket c nan_cast walls K i =
      max 2 ⌊((c._est_max_cache_size : ℚ) * (w i / ∑ j in Finset.range K, w j) +
        (c._est_max_cache_size : ℚ) * (walls.getD (i + 1) 0 - walls.getD i 0) /
          (c._input_range_end - c._input_range_start)) / 2⌋₊ := by
  unfold est_num_elems_for_bucket
  simp only []
  rw [raw_est_value c walls w K i hi hw hW hD]
  rfl

theorem list_range_sum (g : Nat → Nat) :
    ∀ K : Nat, ((List.range K).map g).sum = ∑ i in Finset.range K, g i := by
  intro K
  induction K with
  | zero => rfl
  | succ n ih =>
    rw [List.range_succ, List.map_append, List.sum_append, ih, Finset.sum_range_succ]
    simp

theorem foldl_add_eq_sum (l : List ℚ) :
    ∀ a : ℚ, l.foldl (fun res v => res + v) a = a + l.sum := by
  induction l with
  | nil => intro a; simp
  | cons x rest ih => intro a; rw [List.foldl_cons, ih, List.sum_cons]; ring

theorem seg_loop_induct (c : SmartCacher) (P : SegState → Prop)
    (hstep : ∀ s, P s → s.curr_x ≤ c._input_range_end → P (seg_step c s)) :
    ∀ (fuel : Nat) (s r : SegState), P s → seg_loop c fuel s = some r →
      P r ∧ c._input_range_end < r.curr_x := by
  intro fuel
  induction fuel with
  | zero => intro s r _ h; simp [seg_loop] at h
  | succ n ih =>
    intro s r hP h
    rw [seg_loop] at h
    split at h
    · rename_i hle
      exact ih _ _ (hstep s hP hle) h
    · rename_i hgt
      injection h with h
      subst h
      exact ⟨hP, lt_of_not_le hgt⟩

theorem seg_step_curr_x (c : SmartCacher) (s : SegState) :
    (seg_step c s).curr_x = s.curr_x + c._granularity := by
  unfold seg_step
  simp only
  split <;> rfl

theorem seg_step_walls (c : SmartCacher) (s : SegState) :
    ((seg_step c s).est_bucket_walls = s.est_bucket_walls ∧
      (seg_step c s).buckets.length = s.buckets.length ∨
     (seg_step c s).est_bucket_walls = s.est_bucket_walls ++ [s.curr_x] ∧
      (seg_step c s).buckets.length = s.buckets.length + 1) ∨ s.buckets = [] := by
  by_cases hne : s.buckets = []
  · exact Or.inr hne
  · left
    unfold seg_step
    simp only
    split
    · left
      refine ⟨rfl, ?_⟩
      have : 0 < s.buckets.length := List.length_pos.mpr hne
      simp
      omega
    · right
      exact ⟨rfl, by simp⟩

theorem seg_step_buckets_ne (c : SmartCacher) (s : SegState) :
    (seg_step c s).buckets ≠ [] := by
  unfold seg_step
  simp only
  split <;> simp

theorem seg_loop_shape (c : SmartCacher) (fuel : Nat) (r : SegState)
    (h : seg_loop c fuel (seg_start c) = some r) :
    r.buckets.length = r.est_bucket_walls.length ∧ 1 ≤ r.est_bucket_walls.length ∧
    r.est_bucket_walls.getD 0 0 = c._input_range_start := by
  have key := seg_loop_induct c
    (fun s => s.buckets ≠ [] ∧ s.buckets.length = s.est_bucket_walls.length ∧
      1 ≤ s.est_bucket_walls.length ∧ s.est_bucket_walls.getD 0 0 = c._input_range_start)
    (by
      intro s ⟨h0, h1, h2, h3⟩ _
      refine ⟨seg_step_buckets_ne c s, ?_⟩
      rcases seg_step_walls c s with (⟨e1, e2⟩ | ⟨e1, e2⟩) | e
      · rw [e1, e2]; exact ⟨h1, h2, h3⟩
      · rw [e1, e2]
        refine ⟨by simp [h1], by simp, ?_⟩
        rw [List.getD_append _ _ _ _ (by omega)]
        exact h3
      · exact absurd e h0)
    fuel (seg_start c) r (by simp [seg_start]) h
  exact key.1.2

theorem seg_loop_sorted (c : SmartCacher) (hg : 0 < c._granularity)
    (hse : c._input_range_start ≤ c._input_range_end) (fuel : Nat) (r : SegState)
    (h : seg_loop c fuel (seg_start c) = some r) :
    r.est_bucket_walls.Pairwise (fun a b => a < b) ∧
    (∀ w ∈ r.est_bucket_walls, w ≤ c._input_range_end) ∧
    (∀ w ∈ r.est_bucket_walls, w = c._input_range_start ∨
      ∃ m : Nat, 1 ≤ m ∧ w = c._input_range_start + (m : ℚ) * c._granularity) := by
  have key := seg_loop_induct c
    (fun s => s.buckets ≠ [] ∧ s.est_bucket_walls.Pairwise (fun a b => a < b) ∧
      (∀ w ∈ s.est_bucket_walls, w < s.curr_x) ∧
      (∀ w ∈ s.est_bucket_walls, w ≤ c._input_range_end) ∧
      (∃ n : Nat, 1 ≤ n ∧ s.curr_x = c._input_range_start + (n : ℚ) * c._granularity) ∧
      (∀ w ∈ s.est_bucket_walls, w = c._input_range_start ∨
        ∃ m : Nat, 1 ≤ m ∧ w = c._input_range_start + (m : ℚ) * c._granularity))
    (by
      intro s ⟨h0, h1, h2, h3, ⟨n, hn1, hn2⟩, h5⟩ hle
      refine ⟨seg_step_buckets_ne c s, ?_⟩
      have hx := seg_step_curr_x c s
      have hn : ∃ n : Nat, 1 ≤ n ∧
          (seg_step c s).curr_x = c._input_range_start + (n : ℚ) * c._granularity :=
        ⟨n + 1, by omega, by rw [hx, hn2]; push_cast; ring⟩
      rcases seg_step_walls c s with (⟨e1, _⟩ | ⟨e1, _⟩) | e
      · rw [e1, hx]
        exact ⟨h1, fun w hw => by have := h2 w hw; linarith, h3, by rw [← hx]; exact hn, h5⟩
      · rw [e1, hx]
        refine ⟨?_, ?_, ?_, by rw [← hx]; exact hn, ?_⟩
        · rw [List.pairwise_append]
          refine ⟨h1, List.pairwise_singleton _ _, ?_⟩
          intro a ha b hb
          rw [List.mem_singleton] at hb
          rw [hb]
          exact h2 a ha
        · intro w hw
          rcases List.mem_append.mp hw with hw | hw
          · have := h2 w hw; linarith
          · rw [List.mem_singleton] at hw
            rw [hw]; linarith
        · intro w hw
          rcases List.mem_append.mp hw with hw | hw
          · exact h3 w hw
          · rw [List.mem_singleton] at hw
            rw [hw]; exact hle
        · intro w hw
          rcases List.mem_append.mp hw with hw | hw
          · exact h5 w hw
          · rw [List.mem_singleton] at hw
            rw [hw]; exact Or.inr ⟨n, hn1, hn2⟩
      · exact absurd e h0)
    fuel (seg_start c) r
    (by
      refine ⟨by simp [seg_start], by simp [seg_start], ?_, ?_, ⟨1, le_refl 1, ?_⟩, ?_⟩
      · intro w hw
        simp only [seg_start, List.mem_singleton] at hw
        rw [hw]
        show c._input_range_start < c._input_range_start + c._granularity
        linarith
      · intro w hw
        simp only [seg_start, List.mem_singleton] at hw
        rw [hw]; exact hse
      · show c._input_range_start + c._granularity = _
        push_cast; ring
      · intro w hw
        simp only [seg_start, List.mem_singleton] at hw
        exact Or.inl hw)
    h
  exact ⟨key.1.2.1, key.1.2.2.2.1, key.1.2.2.2.2.2⟩

theorem seg_loop_mono (c : SmartCacher) :
    ∀ (fuel : Nat) (s r : SegState), seg_loop c fuel s = some r →
      ∀ fuel1, fuel ≤ fuel1 → seg_loop c fuel1 s = some r := by
  intro fuel
  induction fuel with
  | zero => intro s r h; simp [seg_loop] at h
  | succ n ih =>
    intro s r h fuel1 hle
    obtain ⟨k, rfl⟩ : ∃ k, fuel1 = k + 1 := ⟨fuel1 - 1, by omega⟩
    rw [seg_loop] at h ⊢
    split
    · rename_i hc
      rw [if_pos hc] at h
      exact ih _ _ h k (by omega)
    · rename_i hc
      rw [if_neg hc] at h
      exact h

theorem seg_loop_terminates (c : SmartCacher) :
    ∀ (n : Nat) (s : SegState), c._input_range_end - s.curr_x < (n : ℚ) * c._granularity →
      ∀ fuel, n < fuel → ∃ r, seg_loop c fuel s = some r := by
  intro n
  induction n with
  | zero =>
    intro s hs fuel hfuel
    obtain ⟨k, rfl⟩ : ∃ k, fuel = k + 1 := ⟨fuel - 1, by omega⟩
    rw [seg_loop, if_neg (by simp at hs; linarith)]
    exact ⟨s, rfl⟩
  | succ n ih =>
    intro s hs fuel hfuel
    obtain ⟨k, rfl⟩ : ∃ k, fuel = k + 1 := ⟨fuel - 1, by omega⟩
    rw [seg_loop]
    split
    · apply ih _ _ k (by omega)
      rw [seg_step_curr_x]
      push_cast at hs
      linarith
    · exact ⟨s, rfl⟩

theorem seg_loop_diverges (c : SmartCacher) (hg : c._granularity ≤ 0) :
    ∀ (fuel : Nat) (s : SegState), s.curr_x ≤ c._input_range_end →
      seg_loop c fuel s = none := by
  intro fuel
  induction fuel with
  | zero => intro s _; rfl
  | succ n ih =>
    intro s hs
    rw [seg_loop, if_pos hs]
    apply ih
    rw [seg_step_curr_x]
    linarith

theorem seg_iterate_below_end (c : SmartCacher) (hse : c._input_range_start ≤ c._input_range_end)
    (hg : c._granularity ≤ 0) (n : Nat) :
    ((seg_step c)^[n] (seg_start c)).curr_x ≤ c._input_range_end := by
  induction n with
  | zero =>
    show c._input_range_start + c._granularity ≤ c._input_range_end
    linarith
  | succ k ih =>
    rw [Function.iterate_succ_apply', seg_step_curr_x]
    linarith

theorem segmentation_spec (c : SmartCacher) (fuel : Nat) (walls : List ℚ) (K : Nat)
    (h : segmentation c fuel = some (walls, K)) :
    walls.length = K + 1 ∧ 1 ≤ K ∧ walls.getD 0 0 = c._input_range_start ∧
    walls.getD K 0 = c._input_range_end := by
  unfold segmentation at h
  split at h
  · cases h
  · rename_i r hr
    obtain ⟨h1, h2, h3⟩ := seg_loop_shape c fuel r hr
    injection h with h
    injection h with hw hK
    subst hw hK
    refine ⟨by simp [h1], by omega, ?_, ?_⟩
    · rw [List.getD_append _ _ _ _ (by omega)]
      exact h3
    · rw [h1]
      simp [List.getD_eq_getElem?_getD]

theorem segmentation_sorted (c : SmartCacher) (hg : 0 < c._granularity)
    (hse : c._input_range_start ≤ c._input_range_end) (fuel : Nat) (walls : List ℚ) (K : Nat)
    (h : segmentation c fuel = some (walls, K)) :
    (∀ i, i + 1 < K → walls.getD i 0 < walls.getD (i + 1) 0) ∧
    (∀ i, i < K → walls.getD i 0 ≤ c._input_range_end) ∧
    (∀ i, i < K → walls.getD i 0 = c._input_range_start ∨
      ∃ m : Nat, 1 ≤ m ∧
        walls.getD i 0 = c._input_range_start + (m : ℚ) * c._granularity) := by
  unfold segmentation at h
  split at h
  · cases h
  · rename_i r hr
    obtain ⟨h1, _, _⟩ := seg_loop_shape c fuel r hr
    obtain ⟨hp, hle, hprobe⟩ := seg_loop_sorted c hg hse fuel r hr
    injection h with h
    injection h with hw hK
    subst hw hK
    rw [h1]
    have hget : ∀ i (hi : i < r.est_bucket_walls.length),
        (r.est_bucket_walls ++ [c._input_range_end]).getD i 0 = r.est_bucket_walls[i] := by
      intro i hi
      rw [List.getD_append _ _ _ _ hi, List.getD_eq_getElem _ _ hi]
    refine ⟨?_, ?_, ?_⟩
    · intro i hi
      rw [hget i (by omega), hget (i + 1) hi]
      exact List.pairwise_iff_getElem.mp hp i (i + 1) (by omega) hi (by omega)
    · intro i hi
      rw [hget i hi]
      exact hle _ (List.getElem_mem _)
    · intro i hi
      rw [hget i hi]
      exact hprobe _ (List.getElem_mem _)

theorem segmentation_mono (c : SmartCacher) (fuel fuel1 : Nat) (r : List ℚ × Nat)
    (h : segmentation c fuel = some r) (hle : fuel ≤ fuel1) : segmentation c fuel1 = some r := by
  unfold segmentation at h ⊢
  split at h
  · cases h
  · rename_i s hs
    rw [seg_loop_mono c fuel _ s hs fuel1 hle]
    exact h

theorem segmentation_unique (c : SmartCacher) (fuel fuel1 : Nat) (r r1 : List ℚ × Nat)
    (h : segmentation c fuel = some r) (h1 : segmentation c fuel1 = some r1) : r = r1 := by
  have e := segmentation_mono c fuel (max fuel fuel1) r h (le_max_left _ _)
  have e1 := segmentation_mono c fuel1 (max fuel fuel1) r1 h1 (le_max_right _ _)
  rw [e] at e1
  exact Option.some.inj e1

theorem segmentation_terminates (c : SmartCacher) (hg : 0 < c._granularity) :
    ∃ (fuel : Nat) (r : List ℚ × Nat), segmentation c fuel = some r := by
  obtain ⟨n, hn⟩ := exists_nat_gt ((c._input_range_end - (seg_start c).curr_x) / c._granularity)
  rw [div_lt_iff₀ hg] at hn
  obtain ⟨r, hr⟩ := seg_loop_terminates c n (seg_start c) hn (n + 1) (by omega)
  exact ⟨n + 1, _, by unfold segmentation; rw [hr]⟩

theorem segmentation_diverges (c : SmartCacher) (hg : c._granularity ≤ 0)
    (hse : c._input_range_start ≤ c._input_range_end) (fuel : Nat) :
    segmentation c fuel = none := by
  unfold segmentation
  rw [seg_loop_diverges c hg fuel (seg_start c)
    (by show c._input_range_start + c._granularity ≤ c._input_range_end; linarith)]

theorem init_spec (c : SmartCacher) (nan_cast fuel : Nat) (t : SmartCacher)
    (h : c.init nan_cast fuel = .ok t) :
    ∃ (walls : List ℚ) (K : Nat) (bs : List BucketData),
      segmentation c fuel = some (walls, K) ∧ bs.length = K ∧
      (∀ (j : Nat) (hb : j < bs.length),
        build_bucket c nan_cast walls K fuel j = .ok (bs.get ⟨j, hb⟩)) ∧
      t._input_range_start = c._input_range_start ∧
      t._input_range_end = c._input_range_end ∧
      t._num_buckets = K ∧
      t._cache = bs.map (fun b => b.bucket) ∧
      t._bucket_sizes = bs.map (fun b => b.actual_bucket_elems) ∧
      t._bucket_granularities = bs.map (fun b => b.bucket_granularity) ∧
      t._bucket_walls = bs.flatMap (fun b => [b.low_wall, b.high_wall]) ∧
      t._actual_cache_size = bs.foldl (fun acc b => acc + b.actual_bucket_elems) 0 := by
  unfold SmartCacher.init at h
  split at h
  · cases h
  · rename_i walls K hseg
    split at h
    · cases h
    · rename_i bs hbs
      obtain ⟨hl, hget⟩ := alloc_loop_range _ K bs hbs
      injection h with h
      subst h
      exact ⟨walls, K, bs, hseg, hl,
        fun j hb => (alloc_bucket_ok c nan_cast walls K fuel j _ (hget j hb)).2,
        rfl, rfl, rfl, rfl, rfl, rfl, rfl, rfl⟩

theorem init_bucket_fields (c : SmartCacher) (nan_cast fuel : Nat) (t : SmartCacher)
    (h : c.init nan_cast fuel = .ok t) :
    ∃ (walls : List ℚ) (bs : List BucketData),
      segmentation c fuel = some (walls, t._num_buckets) ∧ bs.length = t._num_buckets ∧
      t._input_range_start = c._input_range_start ∧
      t._input_range_end = c._input_range_end ∧
      t._bucket_walls.length = 2 * t._num_buckets ∧
      ∀ (j : Nat) (hb : j < bs.length),
        build_bucket c nan_cast walls t._num_buckets fuel j = .ok (bs.get ⟨j, hb⟩) ∧
        t._bucket_walls[2 * j]? = some (bs.get ⟨j, hb⟩).low_wall ∧
        t._bucket_walls[2 * j + 1]? = some (bs.get ⟨j, hb⟩).high_wall ∧
        t._bucket_granularities[j]? = some (bs.get ⟨j, hb⟩).bucket_granularity ∧
        t._bucket_sizes[j]? = some (bs.get ⟨j, hb⟩).actual_bucket_elems ∧
        t._cache[j]? = some (bs.get ⟨j, hb⟩).bucket := by
  obtain ⟨walls, K, bs, hseg, hl, hget, hs, he, hK, hc, hsz, hg, hw, _⟩ :=
    init_spec c nan_cast fuel t h
  subst hK
  refine ⟨walls, bs, hseg, hl, hs, he, ?_, ?_⟩
  · rw [hw, walls_flat_length, hl]
  · intro j hb
    obtain ⟨w1, w2⟩ := walls_flat_get bs j hb
    refine ⟨hget j hb, ?_, ?_, ?_, ?_, ?_⟩
    · rw [hw]; exact w1
    · rw [hw]; exact w2
    · rw [hg]; simp [List.getElem?_map, List.getElem?_eq_getElem hb]
    · rw [hsz]; simp [List.getElem?_map, List.getElem?_eq_getElem hb]
    · rw [hc]; simp [List.getElem?_map, List.getElem?_eq_getElem hb]

theorem init_walls (c : SmartCacher) (nan_cast fuel : Nat) (t : SmartCacher)
    (h : c.init nan_cast fuel = .ok t) :
    1 ≤ t._num_buckets ∧
    (∀ i, i < t._num_buckets →
      t._bucket_walls[2 * i]? = some (t._bucket_walls.getD (2 * i) 0) ∧
      t._bucket_walls[2 * i + 1]? = some (t._bucket_walls.getD (2 * i + 1) 0)) ∧
    (∀ i, i + 1 < t._num_buckets →
      t._bucket_walls.getD (2 * (i + 1)) 0 < t._bucket_walls.getD (2 * i + 1) 0) ∧
    t._bucket_walls.getD (2 * 0) 0 = c._input_range_start ∧
    c._input_range_end < t._bucket_walls.getD (2 * (t._num_buckets - 1) + 1) 0 := by
  obtain ⟨walls, bs, hseg, hl, _, _, hlen, hall⟩ := init_bucket_fields c nan_cast fuel t h
  obtain ⟨_, hK, hw0, hwK⟩ := segmentation_spec c fuel walls _ hseg
  have hlow : ∀ (i : Nat) (hi : i < bs.length),
      t._bucket_walls.getD (2 * i) 0 = walls.getD i 0 := by
    intro i hi
    obtain ⟨hb, w1, _⟩ := hall i hi
    rw [List.getD_eq_getElem?_getD, w1, Option.getD_some]
    exact (build_bucket_spec c nan_cast walls _ fuel i _ hb).1
  have hhigh : ∀ (i : Nat) (hi : i < bs.length),
      walls.getD (i + 1) 0 < t._bucket_walls.getD (2 * i + 1) 0 := by
    intro i hi
    obtain ⟨hb, _, w2, _⟩ := hall i hi
    have e : t._bucket_walls.getD (2 * i + 1) 0 = (bs.get ⟨i, hi⟩).high_wall := by
      rw [List.getD_eq_getElem?_getD, w2, Option.getD_some]
    rw [e]
    exact (build_bucket_spec c nan_cast walls _ fuel i _ hb).2.2.2.2.1
  refine ⟨hK, ?_, ?_, ?_, ?_⟩
  · intro i hi
    have h1 : 2 * i < t._bucket_walls.length := by omega
    have h2 : 2 * i + 1 < t._bucket_walls.length := by omega
    rw [List.getD_eq_getElem _ _ h1, List.getD_eq_getElem _ _ h2]
    exact ⟨List.getElem?_eq_getElem h1, List.getElem?_eq_getElem h2⟩
  · intro i hi
    rw [hlow (i + 1) (by omega)]
    exact hhigh i (by omega)
  · rw [hlow 0 (by omega)]
    exact hw0
  · have := hhigh (t._num_buckets - 1) (by omega)
    rw [show t._num_buckets - 1 + 1 = t._num_buckets by omega, hwK] at this
    exact this

theorem init_low_walls_increase (c : SmartCacher) (nan_cast fuel : Nat) (t : SmartCacher)
    (h : c.init nan_cast fuel = .ok t) (i : Nat) (hi : i + 1 < t._num_buckets) :
    t._bucket_walls.getD (2 * i) 0 < t._bucket_walls.getD (2 * (i + 1)) 0 := by
  obtain ⟨walls, bs, _, hl, _, _, _, hall⟩ := init_bucket_fields c nan_cast fuel t h
  have hlow : ∀ (j : Nat) (hj : j < bs.length),
      t._bucket_walls.getD (2 * j) 0 = walls.getD j 0 := by
    intro j hj
    obtain ⟨hb, w1, _⟩ := hall j hj
    rw [List.getD_eq_getElem?_getD, w1, Option.getD_some]
    exact (build_bucket_spec c nan_cast walls _ fuel j _ hb).1
  rw [hlow i (by omega), hlow (i + 1) (by omega)]
  obtain ⟨hb, _⟩ := hall i (by omega)
  exact (build_bucket_spec c nan_cast walls _ fuel i _ hb).2.2.2.1

theorem init_fits (c : SmartCacher) (nan_cast fuel : Nat) (t : SmartCacher)
    (h : c.init nan_cast fuel = .ok t) :
    ∃ walls : List ℚ, segmentation c fuel = some (walls, t._num_buckets) ∧
      ∀ i, i < t._num_buckets →
        est_num_elems_for_bucket c nan_cast walls t._num_buckets i + safety ≤ max_array_len ∧
        0 < bucket_stride c nan_cast walls t._num_buckets i := by
  unfold SmartCacher.init at h
  split at h
  · cases h
  · rename_i walls K hseg
    split at h
    · cases h
    · rename_i bs hbs
      obtain ⟨hl, hget⟩ := alloc_loop_range _ K bs hbs
      injection h with h
      subst h
      exact ⟨walls, hseg, fun i hi =>
        alloc_bucket_good c nan_cast walls K fuel i _ (hget i (by rw [hl]; exact hi))⟩

theorem init_ok_iff (c : SmartCacher) (nan_cast fuel0 : Nat) (walls : List ℚ) (K : Nat)
    (hseg : segmentation c fuel0 = some (walls, K)) :
    (∃ fuel t, c.init nan_cast fuel = .ok t) ↔
      ∀ i, i < K →
        est_num_elems_for_bucket c nan_cast walls K i + safety ≤ max_array_len ∧
        0 < bucket_stride c nan_cast walls K i := by
  constructor
  · intro ⟨fuel, t, h⟩ i hi
    obtain ⟨walls1, hseg1, hall⟩ := init_fits c nan_cast fuel t h
    have := segmentation_unique c fuel0 fuel _ _ hseg hseg1
    injection this with e1 e2
    subst e1 e2
    exact hall i hi
  · intro hall
    obtain ⟨N, bs, hN⟩ := alloc_loop_ok_of_fuel c nan_cast walls K (List.range K)
      fun i hi => hall i (List.mem_range.mp hi)
    refine ⟨max N fuel0, ?_⟩
    unfold SmartCacher.init
    rw [segmentation_mono c fuel0 _ _ hseg (le_max_right _ _)]
    simp only []
    rw [hN _ (le_max_left _ _)]
    exact ⟨_, rfl⟩

theorem init_diverges (c : SmartCacher) (hse : c._input_range_start ≤ c._input_range_end)
    (hg : c._granularity ≤ 0) (nan_cast fuel : Nat) :
    c.init nan_cast fuel = .error .outOfFuel := by
  unfold SmartCacher.init
  rw [segmentation_diverges c hg hse fuel]

theorem init_bucket_exact (c : SmartCacher) (nan_cast fuel : Nat) (t : SmartCacher)
    (h : c.init nan_cast fuel = .ok t) :
    ∃ walls : List ℚ,
      segmentation c fuel = some (walls, t._num_buckets) ∧
      ∀ i, i < t._num_buckets →
        0 < bucket_stride c nan_cast walls t._num_buckets i ∧
        t._bucket_walls[2 * i]? = some (walls.getD i 0) ∧
        t._bucket_walls[2 * i + 1]? =
          some (walls.getD (i + 1) 0 + bucket_stride c nan_cast walls t._num_buckets i) ∧
        walls.getD (i + 1) 0 + bucket_stride c nan_cast walls t._num_buckets i =
          walls.getD i 0 +
            ((est_num_elems_for_bucket c nan_cast walls t._num_buckets i : ℚ) + 1) *
              bucket_stride c nan_cast walls t._num_buckets i ∧
        t._bucket_granularities[i]? = some (bucket_stride c nan_cast walls t._num_buckets i) ∧
        t._bucket_sizes[i]? =
          some (est_num_elems_for_bucket c nan_cast walls t._num_buckets i + 2) ∧
        t._cache[i]? = some
          ((List.range (est_num_elems_for_bucket c nan_cast walls t._num_buckets i + 1)).map
            (fun (j : Nat) => c._cached_function (walls.getD i 0 +
              (j : ℚ) * bucket_stride c nan_cast walls t._num_buckets i +
              (if c._use_middle then 1 / 2 else 0) *
                bucket_stride c nan_cast walls t._num_buckets i)) ++
          [c._cached_function (walls.getD i 0 +
            ((est_num_elems_for_bucket c nan_cast walls t._num_buckets i : ℚ) + 1) *
              bucket_stride c nan_cast walls t._num_buckets i)]) := by
  obtain ⟨walls, bs, hseg, hl, _, _, _, hall⟩ := init_bucket_fields c nan_cast fuel t h
  refine ⟨walls, hseg, ?_⟩
  intro i hi
  obtain ⟨hb, w1, w2, hg, hs, hc⟩ := hall i (by omega)
  obtain ⟨e0, e1, e2, _, e4, e5, e6, e7⟩ :=
    build_bucket_exact c nan_cast walls _ fuel i _ hb
  refine ⟨e0, ?_, ?_, ?_, ?_, ?_, ?_⟩
  · rw [w1, e2]
  · rw [w2, e5]
  · rw [← e5, e6]
  · rw [hg, e1]
  · rw [hs, e4]
  · rw [hc, e7]

theorem init_size_sum (c : SmartCacher) (nan_cast fuel : Nat) (t : SmartCacher)
    (h : c.init nan_cast fuel = .ok t) :
    ∃ walls : List ℚ,
      segmentation c fuel = some (walls, t._num_buckets) ∧
      t.get_size = ∑ i in Finset.range t._num_buckets,
        (est_num_elems_for_bucket c nan_cast walls t._num_buckets i + 2) := by
  obtain ⟨walls, K, bs, hseg, hl, hget, _, _, hK, _, _, _, _, ha⟩ :=
    init_spec c nan_cast fuel t h
  subst hK
  refine ⟨walls, hseg, ?_⟩
  have hmap : bs.map (fun b => b.actual_bucket_elems) =
      (List.range t._num_buckets).map
        (fun i => est_num_elems_for_bucket c nan_cast walls t._num_buckets i + 2) := by
    apply List.ext_getElem
    · simp [hl]
    · intro n h1 h2
      have hn : n < bs.length := by simpa using h1
      have := (build_bucket_exact c nan_cast walls _ fuel n _ (hget n hn)).2.2.2.2.1
      simpa using this
  unfold SmartCacher.get_size
  rw [ha, foldl_sizes, zero_add, hmap, list_range_sum]

/-! ## The search loop of `retrieve` -/

theorem search_loop_found (t : SmartCacher) (key : ℚ) (n : Nat) (s : SearchState)
    (h : s.found = true) : search_loop t key n s = .ok s := by
  cases n <;> simp [search_loop, h]

theorem search_loop_finds (t : SmartCacher) (key : ℚ) (K : Nat) (lo hi : Nat → ℚ)
    (hwalls : ∀ i, i < K → t._bucket_walls[2 * i]? = some (lo i) ∧
      t._bucket_walls[2 * i + 1]? = some (hi i))
    (hgap : ∀ i, i + 1 < K → lo (i + 1) ≤ hi i) :
    ∀ (d : Nat) (s : SearchState), s.found = false → s.wrapped = false →
      s.leftmost_bucket ≤ s.rightmost_bucket → s.rightmost_bucket < K →
      s.rightmost_bucket - s.leftmost_bucket ≤ d →
      lo s.leftmost_bucket ≤ key → key ≤ hi s.rightmost_bucket →
      ∃ r : SearchState, (∀ n, d < n → search_loop t key n s = .ok r) ∧
        r.found = true ∧ r.wrapped = false ∧ r.found_bucket < K ∧
        r.smallest = lo r.found_bucket ∧ r.biggest = hi r.found_bucket ∧
        lo r.found_bucket ≤ key ∧ key ≤ hi r.found_bucket := by
  intro d
  induction d with
  | zero =>
    intro s hf hw hlr hrK hd hlo hhi
    have heq : s.rightmost_bucket = s.leftmost_bucket := by omega
    have hmid : s.leftmost_bucket + size_t_sub s.rightmost_bucket s.leftmost_bucket / 2 =
        s.leftmost_bucket := by
      simp [size_t_sub, heq]
    obtain ⟨w1, w2⟩ := hwalls s.leftmost_bucket (by omega)
    have hstep : search_step t key s = .ok
        { s with found := true, found_bucket := s.leftmost_bucket,
                 smallest := lo s.leftmost_bucket, biggest := hi s.leftmost_bucket } := by
      unfold search_step
      simp only [hmid, w1, w2]
      rw [if_pos ⟨hlo, by rw [heq] at hhi; exact hhi⟩]
    refine ⟨
        { s with found := true, found_bucket := s.leftmost_bucket,
                 smallest := lo s.leftmost_bucket, biggest := hi s.leftmost_bucket },
      ?_, rfl, hw, ?_, rfl, rfl, hlo, by rw [heq] at hhi; exact hhi⟩
    · intro n hn
      obtain ⟨k, rfl⟩ : ∃ k, n = k + 1 := ⟨n - 1, by omega⟩
      rw [search_loop, if_neg (by simp [hf]), hstep]
      exact search_loop_found t key k _ rfl
    · show s.leftmost_bucket < K
      omega
  | succ d ih =>
    intro s hf hw hlr hrK hd hlo hhi
    have hsub : size_t_sub s.rightmost_bucket s.leftmost_bucket =
        s.rightmost_bucket - s.leftmost_bucket := by
      simp [size_t_sub, hlr]
    obtain ⟨mid, hmid⟩ : ∃ mid, mid =
        s.leftmost_bucket + size_t_sub s.rightmost_bucket s.leftmost_bucket / 2 := ⟨_, rfl⟩
    have hmid1 : s.leftmost_bucket ≤ mid := by omega
    have hmid2 : mid ≤ s.rightmost_bucket := by rw [hmid, hsub]; omega
    obtain ⟨w1, w2⟩ := hwalls mid (by omega)
    by_cases hcov : lo mid ≤ key ∧ hi mid ≥ key
    · have hstep : search_step t key s = .ok
        { s with found := true, found_bucket := mid,
                 smallest := lo mid, biggest := hi mid } := by
        unfold search_step
        simp only [← hmid, w1, w2]
        rw [if_pos hcov]
      refine ⟨
          { s with found := true, found_bucket := mid,
                   smallest := lo mid, biggest := hi mid },
        ?_, rfl, hw, ?_, rfl, rfl, hcov.1, hcov.2⟩
      · intro n hn
        obtain ⟨k, rfl⟩ : ∃ k, n = k + 1 := ⟨n - 1, by omega⟩
        rw [search_loop, if_neg (by simp [hf]), hstep]
        exact search_loop_found t key k _ rfl
      · show mid < K
        omega
    · by_cases hbig : key > hi mid
      · have hlt : mid < s.rightmost_bucket := by
          rcases Nat.lt_or_ge mid s.rightmost_bucket with h1 | h1
          · exact h1
          · have : mid = s.rightmost_bucket := by omega
            rw [this] at hbig
            exact absurd hhi (not_le.mpr hbig)
        have hstep : search_step t key s = .ok
            { s with leftmost_bucket := mid + 1, smallest := lo mid,
                     biggest := hi mid } := by
          unfold search_step
          simp only [← hmid, w1, w2]
          rw [if_neg hcov, if_pos hbig]
        obtain ⟨r, hr, hrest⟩ := ih
            { s with leftmost_bucket := mid + 1, smallest := lo mid,
                     biggest := hi mid } hf hw
          (by show mid + 1 ≤ s.rightmost_bucket; omega) hrK
          (by show s.rightmost_bucket - (mid + 1) ≤ d; omega)
          (by show lo (mid + 1) ≤ key
              exact le_trans (hgap mid (by omega)) hbig.le)
          hhi
        refine ⟨r, ?_, hrest⟩
        intro n hn
        obtain ⟨k, rfl⟩ : ∃ k, n = k + 1 := ⟨n - 1, by omega⟩
        rw [search_loop, if_neg (by simp [hf]), hstep]
        exact hr k (by omega)
      · have hsmall : key < lo mid := by
          by_contra hcon
          exact hcov ⟨not_lt.mp hcon, not_lt.mp hbig⟩
        have hgt : s.leftmost_bucket < mid := by
          rcases Nat.lt_or_ge s.leftmost_bucket mid with h1 | h1
          · exact h1
          · have : mid = s.leftmost_bucket := by omega
            rw [this] at hsmall
            exact absurd hlo (not_le.mpr hsmall)
        have hdec : size_t_sub mid 1 = mid - 1 := by
          simp [size_t_sub]
          omega
        have hstep : search_step t key s = .ok
            { s with rightmost_bucket := mid - 1, smallest := lo mid,
                     biggest := hi mid, wrapped := false } := by
          unfold search_step
          simp only [← hmid, w1, w2]
          rw [if_neg hcov, if_neg hbig, hdec, hw]
          have : decide (mid = 0) = false := by simp; omega
          rw [this]
          rfl
        obtain ⟨r, hr, hrest⟩ := ih
            { s with rightmost_bucket := mid - 1, smallest := lo mid,
                     biggest := hi mid, wrapped := false } hf rfl
          (by show s.leftmost_bucket ≤ mid - 1; omega)
          (by show mid - 1 < K; omega)
          (by show mid - 1 - s.leftmost_bucket ≤ d; omega)
          hlo
          (by show key ≤ hi (mid - 1)
              have := hgap (mid - 1) (by omega)
              rw [show mid - 1 + 1 = mid by omega] at this
              exact le_trans hsmall.le this)
        refine ⟨r, ?_, hrest⟩
        intro n hn
        obtain ⟨k, rfl⟩ : ∃ k, n = k + 1 := ⟨n - 1, by omega⟩
        rw [search_loop, if_neg (by simp [hf]), hstep]
        exact hr k (by omega)

theorem search_covering (c : SmartCacher) (nan_cast fuel : Nat)
    (t : SmartCacher) (h : c.init nan_cast fuel = .ok t) (x : ℚ)
    (hlo : c._input_range_start ≤ x) (hhi : x ≤ c._input_range_end) :
    ∃ s : SearchState,
      (∀ n, t._num_buckets ≤ n → search_loop t x n (search_start t) = .ok s) ∧
      s.found = true ∧ s.wrapped = false ∧ s.found_bucket < t._num_buckets ∧
      t._bucket_walls[2 * s.found_bucket]? = some s.smallest ∧
      t._bucket_walls[2 * s.found_bucket + 1]? = some s.biggest ∧
      s.smallest ≤ x ∧ x ≤ s.biggest := by
  obtain ⟨hK, hwalls, hgap, hstart, hend⟩ := init_walls c nan_cast fuel t h
  have hsub : size_t_sub t._num_buckets 1 = t._num_buckets - 1 := by
    simp [size_t_sub, hK]
  obtain ⟨r, hr, hf, hw, hb, hs, hbg, h1, h2⟩ :=
    search_loop_finds t x t._num_buckets
      (fun i => t._bucket_walls.getD (2 * i) 0) (fun i => t._bucket_walls.getD (2 * i + 1) 0)
      hwalls (fun i hi => (hgap i hi).le) (t._num_buckets - 1) (search_start t) rfl rfl
      (by show 0 ≤ size_t_sub t._num_buckets 1; omega)
      (by show size_t_sub t._num_buckets 1 < t._num_buckets; omega)
      (by show size_t_sub t._num_buckets 1 - 0 ≤ t._num_buckets - 1; omega)
      (by show t._bucket_walls.getD (2 * 0) 0 ≤ x; rw [hstart]; exact hlo)
      (by show x ≤ t._bucket_walls.getD (2 * size_t_sub t._num_buckets 1 + 1) 0
          rw [hsub]; exact le_trans hhi hend.le)
  refine ⟨r, fun n hn => hr n (by omega), hf, hw, hb, ?_, ?_, ?_, ?_⟩
  · rw [hs]; exact (hwalls _ hb).1
  · rw [hbg]; exact (hwalls _ hb).2
  · rw [hs]; exact h1
  · rw [hbg]; exact h2

theorem index_in_bucket (c : SmartCacher) (nan_cast fuel : Nat) (t : SmartCacher)
    (h : c.init nan_cast fuel = .ok t) (b : Nat) (hb : b < t._num_buckets) :
    ∃ (lo hi g : ℚ) (n : Nat) (bucket : List ℚ),
      t._bucket_walls[2 * b]? = some lo ∧ t._bucket_walls[2 * b + 1]? = some hi ∧
      t._bucket_granularities[b]? = some g ∧ t._bucket_sizes[b]? = some n ∧
      t._cache[b]? = some bucket ∧ bucket.length = n ∧
      ∀ x : ℚ, lo ≤ x → x ≤ hi → minibucket_ind x lo g < n := by
  obtain ⟨walls, bs, _, hl, _, _, _, hall⟩ := init_bucket_fields c nan_cast fuel t h
  have hb1 : b < bs.length := by omega
  obtain ⟨hbuild, w1, w2, hg, hs, hc⟩ := hall b hb1
  obtain ⟨_, _, hpos, _, _, _, m, _, hhi, hn, hlen⟩ :=
    build_bucket_spec c nan_cast walls _ fuel b _ hbuild
  refine ⟨_, _, _, _, _, w1, w2, hg, hs, hc, by rw [hlen, hn], ?_⟩
  intro x hlo hhix
  unfold minibucket_ind
  rw [hn, Nat.floor_lt (div_nonneg (by linarith) hpos.le)]
  rw [div_lt_iff₀ hpos]
  rw [hhi] at hhix
  push_cast
  nlinarith

theorem retrieve_returns_sample (c : SmartCacher) (nan_cast fuel : Nat) (t : SmartCacher)
    (h : c.init nan_cast fuel = .ok t) (x : ℚ)
    (hlo : c._input_range_start ≤ x) (hhi : x ≤ c._input_range_end) :
    ∃ v : ℚ, (∀ n, t._num_buckets ≤ n → (t.retrieve x n).1 = .ok v) ∧
      ∃ bucket ∈ t._cache, v ∈ bucket := by
  obtain ⟨s, hr, _, _, hb, w1, w2, h1, h2⟩ := search_covering c nan_cast fuel t h x hlo hhi
  obtain ⟨lo, hi, g, n, bucket, v1, v2, hg, _, hc, hlen, hidx⟩ :=
    index_in_bucket c nan_cast fuel t h s.found_bucket hb
  rw [w1] at v1
  rw [w2] at v2
  have e1 : s.smallest = lo := Option.some.inj v1
  have e2 : s.biggest = hi := Option.some.inj v2
  have hlt : minibucket_ind x s.smallest g < bucket.length := by
    rw [hlen, e1]
    exact hidx x (by rw [← e1]; exact h1) (by rw [← e2]; exact h2)
  refine ⟨bucket[minibucket_ind x s.smallest g], ?_, bucket, List.getElem?_mem hc,
    List.getElem_mem _⟩
  intro m hm
  unfold SmartCacher.retrieve
  rw [hr m hm]
  simp only [hc, hg, List.getElem?_eq_getElem hlt]

theorem retrieve_value (c : SmartCacher) (nan_cast fuel : Nat) (t : SmartCacher)
    (h : c.init nan_cast fuel = .ok t) (x : ℚ)
    (hlo : c._input_range_start ≤ x) (hhi : x ≤ c._input_range_end) :
    ∃ (s : SearchState) (g : ℚ) (n : Nat) (bucket : List ℚ),
      (∀ k, t._num_buckets ≤ k → search_loop t x k (search_start t) = .ok s) ∧
      s.found_bucket < t._num_buckets ∧
      t._bucket_walls[2 * s.found_bucket]? = some s.smallest ∧
      t._bucket_walls[2 * s.found_bucket + 1]? = some s.biggest ∧
      t._bucket_granularities[s.found_bucket]? = some g ∧
      t._cache[s.found_bucket]? = some bucket ∧
      0 < g ∧ s.smallest ≤ x ∧ x ≤ s.biggest ∧
      s.biggest = s.smallest + ((n : ℚ) + 1) * g ∧
      bucket = (List.range (n + 1)).map
          (fun (j : Nat) => c._cached_function (s.smallest + (j : ℚ) * g +
            (if c._use_middle then 1 / 2 else 0) * g)) ++
        [c._cached_function (s.smallest + ((n : ℚ) + 1) * g)] ∧
      ∀ k, t._num_buckets ≤ k →
        (t.retrieve x k).1 =
          match bucket[minibucket_ind x s.smallest g]? with
          | some v => .ok v
          | none => .error .sampleOutOfRange := by
  obtain ⟨s, hr, _, _, hb, w1, w2, h1, h2⟩ := search_covering c nan_cast fuel t h x hlo hhi
  obtain ⟨walls, _, hexact⟩ := init_bucket_exact c nan_cast fuel t h
  obtain ⟨hpos, v1, v2, hhigh, hg, _, hc⟩ := hexact s.found_bucket hb
  have e1 : s.smallest = walls.getD s.found_bucket 0 := by
    rw [w1] at v1; exact Option.some.inj v1
  have e2 : s.biggest = walls.getD (s.found_bucket + 1) 0 +
      bucket_stride c nan_cast walls t._num_buckets s.found_bucket := by
    rw [w2] at v2; exact Option.some.inj v2
  refine ⟨s, _, est_num_elems_for_bucket c nan_cast walls t._num_buckets s.found_bucket, _,
    hr, hb, w1, w2, hg, hc, hpos, h1, h2, ?_, ?_, ?_⟩
  · rw [e2, hhigh, e1]
  · rw [e1]
  · intro k hk
    unfold SmartCacher.retrieve
    rw [hr k hk]
    simp only [hc, hg]
    split <;> rename_i heq <;> simp only [heq]

/-! ## The uniform table -/

theorem original_init_some (c : OriginalCacher) (hmax : (c._size : Int) ≤ INT_MAX) :
    c.init = some c.init_loop := by
  unfold OriginalCacher.init
  rw [if_pos hmax]

theorem original_init_cache (c : OriginalCacher) (i : Nat) (hi : i < c._size) :
    c.init_loop._cache[i]? = some (c.init_slot i) := by
  simp [OriginalCacher.init_loop, List.getElem?_map, List.getElem?_range hi]

theorem original_stride_pos (c : OriginalCacher) (hN : 1 ≤ c._size)
    (hse : c._input_range_start < c._input_range_end) :
    0 < (c._input_range_end - c._input_range_start) / (c._size : ℚ) := by
  have : (0 : ℚ) < (c._size : ℚ) := by exact_mod_cast hN
  exact div_pos (by linarith) this

theorem cast_int_floor (q : ℚ) (hq : 0 ≤ q) (hmax : (⌊q⌋₊ : Int) ≤ INT_MAX) :
    cast_int q = some (⌊q⌋₊ : Int) := by
  unfold cast_int
  simp only []
  rw [if_pos hq, ← Int.natCast_floor_eq_floor hq,
    if_pos ⟨le_trans (by decide : INT_MIN ≤ 0) (Int.natCast_nonneg _), hmax⟩]

theorem original_ind_le (c : OriginalCacher) (hN : 1 ≤ c._size)
    (hse : c._input_range_start < c._input_range_end) (x : ℚ)
    (hxe : x ≤ c._input_range_end) :
    ⌊(x - c._input_range_start) /
      ((c._input_range_end - c._input_range_start) / (c._size : ℚ))⌋₊ ≤ c._size := by
  have hs := original_stride_pos c hN hse
  have hNpos : (0 : ℚ) < (c._size : ℚ) := by exact_mod_cast hN
  apply Nat.floor_le_of_le
  rw [div_le_iff₀ hs, mul_div_cancel₀ _ hNpos.ne']
  linarith

theorem original_ind_eq (c : OriginalCacher) (hN : 1 ≤ c._size)
    (hmax : (c._size : Int) ≤ INT_MAX)
    (hse : c._input_range_start < c._input_range_end) (x : ℚ)
    (hx : c._input_range_start ≤ x) (hxe : x ≤ c._input_range_end) :
    c.init_loop.retrieve_ind x = some (⌊(x - c._input_range_start) /
      ((c._input_range_end - c._input_range_start) / (c._size : ℚ))⌋₊ : Int) := by
  have hs := original_stride_pos c hN hse
  have hq : 0 ≤ (x - c._input_range_start) /
      ((c._input_range_end - c._input_range_start) / (c._size : ℚ)) :=
    div_nonneg (by linarith) hs.le
  have hle := original_ind_le c hN hse x hxe
  show cast_int ((x - c._input_range_start) /
      ((c._input_range_end - c._input_range_start) / (c._size : ℚ))) = _
  exact cast_int_floor _ hq (le_trans (by exact_mod_cast hle) hmax)

theorem original_ind_lt (c : OriginalCacher) (hN : 1 ≤ c._size)
    (hse : c._input_range_start < c._input_range_end) (x : ℚ)
    (hx : c._input_range_start ≤ x) (hxe : x < c._input_range_end) :
    ⌊(x - c._input_range_start) /
      ((c._input_range_end - c._input_range_start) / (c._size : ℚ))⌋₊ < c._size := by
  have hs := original_stride_pos c hN hse
  have hNpos : (0 : ℚ) < (c._size : ℚ) := by exact_mod_cast hN
  rw [Nat.floor_lt (div_nonneg (by linarith) hs.le), div_lt_iff₀ hs,
    mul_div_cancel₀ _ hNpos.ne']
  linarith

theorem original_retrieve_eq (c : OriginalCacher) (hN : 1 ≤ c._size)
    (hmax : (c._size : Int) ≤ INT_MAX)
    (hse : c._input_range_start < c._input_range_end) (x : ℚ)
    (hx : c._input_range_start ≤ x) (hxe : x ≤ c._input_range_end) :
    (c.init_loop.retrieve x).1 = c.init_loop._cache[⌊(x - c._input_range_start) /
      ((c._input_range_end - c._input_range_start) / (c._size : ℚ))⌋₊]? := by
  unfold OriginalCacher.retrieve
  rw [original_ind_eq c hN hmax hse x hx hxe]
  simp only [Int.natCast_nonneg, if_true, Int.toNat_ofNat]

/-! ## Rounding to `double` -/

theorem round_half_even_eq (q : ℚ) (n : Int) (h1 : (n : ℚ) - 1 / 2 < q)
    (h2 : q < (n : ℚ) + 1 / 2) : round_half_even q = n := by
  unfold round_half_even
  simp only []
  by_cases hq : (n : ℚ) ≤ q
  · have hf : ⌊q⌋ = n := by
      rw [Int.floor_eq_iff]
      exact ⟨hq, by linarith⟩
    rw [hf, if_pos (by linarith)]
  · push_neg at hq
    have hf : ⌊q⌋ = n - 1 := by
      rw [Int.floor_eq_iff]
      push_cast
      exact ⟨by linarith, by linarith⟩
    rw [hf]
    push_cast
    rw [if_neg (by linarith), if_pos (by linarith)]
    ring

theorem round_half_even_tie (n : Int) (hn : n % 2 = 0) :
    round_half_even ((n : ℚ) + 1 / 2) = n := by
  unfold round_half_even
  simp only []
  have hf : ⌊(n : ℚ) + 1 / 2⌋ = n := by
    rw [Int.floor_eq_iff]
    exact ⟨by linarith, by linarith⟩
  rw [hf, if_neg (by linarith), if_neg (by linarith), if_pos hn]

theorem round_double_eq (q : ℚ) (e m : Int) (hq : 0 < q) (h1 : (2 : ℚ) ^ e ≤ q)
    (h2 : q < (2 : ℚ) ^ (e + 1)) (hm : round_half_even (q / 2 ^ (e - 52)) = m) :
    round_double q = (m : ℚ) * 2 ^ (e - 52) := by
  have hlog : Int.log 2 |q| = e := by
    rw [abs_of_pos hq]
    apply le_antisymm
    · have := (Int.lt_zpow_iff_log_lt (by norm_num : 1 < 2) hq).mp (by exact_mod_cast h2)
      omega
    · exact (Int.zpow_le_iff_le_log (by norm_num : 1 < 2) hq).mp (by exact_mod_cast h1)
  unfold round_double
  rw [if_neg hq.ne']
  simp only [hlog, hm]

theorem round_double_one : round_double 1 = 1 := by
  rw [round_double_eq 1 0 (2 ^ 52) (by norm_num) (by norm_num) (by norm_num)
    (round_half_even_eq _ _ (by norm_num) (by norm_num))]
  norm_num

theorem round_double_three : round_double 3 = 3 := by
  rw [round_double_eq 3 1 (3 * 2 ^ 51) (by norm_num) (by norm_num) (by norm_num)
    (round_half_even_eq _ _ (by norm_num) (by norm_num))]
  norm_num

theorem round_double_third : round_double (1 / 3) = 6004799503160661 / 2 ^ 54 := by
  rw [round_double_eq (1 / 3) (-2) 6004799503160661 (by norm_num) (by norm_num) (by norm_num)
    (round_half_even_eq _ _ (by norm_num) (by norm_num))]
  norm_num

theorem round_double_below_one : round_double (1 - 1 / 2 ^ 53) = 1 - 1 / 2 ^ 53 := by
  rw [round_double_eq (1 - 1 / 2 ^ 53) (-1) (2 ^ 53 - 1) (by norm_num) (by norm_num)
    (by norm_num) (round_half_even_eq _ _ (by norm_num) (by norm_num))]
  norm_num

theorem round_double_below_two_thirds :
    round_double (6004799503160661 / 2 ^ 53) = 6004799503160661 / 2 ^ 53 := by
  rw [round_double_eq (6004799503160661 / 2 ^ 53) (-1) 6004799503160661 (by norm_num)
    (by norm_num) (by norm_num) (round_half_even_eq _ _ (by norm_num) (by norm_num))]
  norm_num

theorem round_double_quotient_three :
    round_double ((1 - 1 / 2 ^ 53) / (6004799503160661 / 2 ^ 54)) = 3 := by
  rw [round_double_eq _ 1 (3 * 2 ^ 51) (by norm_num) (by norm_num) (by norm_num)
    (round_half_even_eq _ _ (by norm_num) (by norm_num))]
  norm_num

theorem round_double_two : round_double 2 = 2 := by
  rw [round_double_eq 2 1 (2 ^ 52) (by norm_num) (by norm_num) (by norm_num)
    (round_half_even_eq _ _ (by norm_num) (by norm_num))]
  norm_num

theorem round_double_far : round_double (10 ^ 16 + 1) = 10 ^ 16 := by
  have hm : round_half_even ((10 ^ 16 + 1 : ℚ) / 2 ^ ((53 : Int) - 52)) =
      5000000000000000 := by
    have e : ((10 ^ 16 + 1 : ℚ) / 2 ^ ((53 : Int) - 52)) =
        ((5000000000000000 : Int) : ℚ) + 1 / 2 := by
      norm_num
    rw [e]
    exact round_half_even_tie _ (by decide)
  rw [round_double_eq (10 ^ 16 + 1) 53 5000000000000000 (by norm_num) (by norm_num)
    (by norm_num) hm]
  norm_num

theorem ex_uniform3_ind_double :
    ex_uniform3.retrieve_ind_double (1 - 1 / 2 ^ 53) = some 3 := by
  have e : ex_uniform3.retrieve_ind_double (1 - 1 / 2 ^ 53) =
      cast_int (round_double (round_double (1 - 1 / 2 ^ 53) /
        round_double (round_double 1 / round_double 3))) := by
    simp [OriginalCacher.retrieve_ind_double, ex_uniform3, OriginalCacher.new]
  rw [e, round_double_one, round_double_three, round_double_third, round_double_below_one,
    round_double_quotient_three]
  have h := cast_int_floor 3 (by norm_num) (by rw [Nat.floor_ofNat]; decide)
  rw [Nat.floor_ofNat] at h
  exact h

theorem ex_uniform3_ind_double_mid :
    ex_uniform3.retrieve_ind_double (6004799503160661 / 2 ^ 53) = some 2 := by
  have e : ex_uniform3.retrieve_ind_double (6004799503160661 / 2 ^ 53) =
      cast_int (round_double (round_double (6004799503160661 / 2 ^ 53) /
        round_double (round_double 1 / round_double 3))) := by
    simp [OriginalCacher.retrieve_ind_double, ex_uniform3, OriginalCacher.new]
  have e2 : ((6004799503160661 : ℚ) / 2 ^ 53) / (6004799503160661 / 2 ^ 54) = 2 := by
    norm_num
  rw [e, round_double_one, round_double_three, round_double_third,
    round_double_below_two_thirds, e2, round_double_two]
  have h := cast_int_floor 2 (by norm_num) (by rw [Nat.floor_ofNat]; decide)
  rw [Nat.floor_ofNat] at h
  exact h

theorem ex_uniform_wide_init : ex_uniform_wide.init = none := by
  unfold OriginalCacher.init
  rw [if_neg (by decide)]

theorem curr_x_double_far (n : Nat) : curr_x_double ex_far n = 10 ^ 16 := by
  induction n with
  | zero =>
    show round_double (ex_far._input_range_start + ex_far._granularity) = 10 ^ 16
    have e : ex_far._input_range_start + ex_far._granularity = 10 ^ 16 + 1 := by
      simp [ex_far, SmartCacher.new]
    rw [e, round_double_far]
  | succ k ih =>
    show round_double (curr_x_double ex_far k + ex_far._granularity) = 10 ^ 16
    have e : ex_far._granularity = 1 := by simp [ex_far, SmartCacher.new]
    rw [ih, e, round_double_far]

/-! ## Evaluation of the example tables -/

theorem ex_segmentation : segmentation ex_cfg 4 = some ([0, 1], 1) := by
  simp [segmentation, seg_loop, seg_start, seg_step, ex_cfg, SmartCacher.new, belongs_in_bucket]
  norm_num

theorem ex_est : est_num_elems_for_bucket ex_cfg 0 [0, 1] 1 0 = 2 := by
  simp [est_num_elems_for_bucket, abs_dy_dx_per_bucket, weight, sum_of_dy_dxs, raw_est,
    safe_div, nan_add, cast_size_t, min_bucket_size, ex_cfg, SmartCacher.new, List.range_succ]

theorem ex_bucket : build_bucket ex_cfg 0 [0, 1] 1 4 0 =
    .ok { allocated := 4, low_wall := 0, high_wall := 3 / 2, bucket := [0, 1 / 2, 1, 3 / 2],
          actual_bucket_elems := 4, bucket_granularity := 1 / 2 } := by
  unfold build_bucket bucket_stride
  rw [ex_est]
  norm_num [fill_loop, extend_past, safety, ex_cfg, SmartCacher.new]

theorem ex_alloc : alloc_bucket ex_cfg 0 [0, 1] 1 4 0 =
    .ok { allocated := 4, low_wall := 0, high_wall := 3 / 2, bucket := [0, 1 / 2, 1, 3 / 2],
          actual_bucket_elems := 4, bucket_granularity := 1 / 2 } := by
  unfold alloc_bucket
  rw [ex_est, if_pos (by decide), ex_bucket]

theorem ex_init : ex_cfg.init 0 4 = .ok ex_table := by
  unfold SmartCacher.init
  rw [ex_segmentation]
  simp only [List.range_succ, List.range_zero, List.nil_append, alloc_loop, ex_alloc]
  simp [ex_table, ex_cfg, SmartCacher.new]

theorem ex_sum : sum_of_dy_dxs (abs_dy_dx_per_bucket ex_cfg [0, 1] 1) = some 1 := by
  simp [sum_of_dy_dxs, abs_dy_dx_per_bucket, weight, safe_div, nan_add, ex_cfg,
    SmartCacher.new, List.range_succ]

theorem ex2_segmentation : segmentation ex2_cfg 5 = some ([0, 3 / 4, 1], 2) := by
  have e1 : |(1 / 4 : ℚ)| = 1 / 4 := abs_of_pos (by norm_num)
  have e2 : |(1 / 8 : ℚ)| = 1 / 8 := abs_of_pos (by norm_num)
  norm_num [segmentation, seg_loop, seg_start, seg_step, ex2_cfg, SmartCacher.new,
    belongs_in_bucket, ex_ramp, avg_function, e1, e2]

theorem ex2_est (i : Nat) : est_num_elems_for_bucket ex2_cfg 0 [0, 3 / 4, 1] 2 i = 2 := by
  unfold est_num_elems_for_bucket
  simp only []
  rw [raw_est_zero_capacity ex2_cfg rfl]
  rfl

theorem ex2_bucket0 : build_bucket ex2_cfg 0 [0, 3 / 4, 1] 2 5 0 =
    .ok { allocated := 4, low_wall := 0, high_wall := 9 / 8, bucket := [0, 1 / 16, 7 / 16, 5 / 8],
          actual_bucket_elems := 4, bucket_granularity := 3 / 8 } := by
  unfold build_bucket bucket_stride
  rw [ex2_est]
  norm_num [fill_loop, extend_past, safety, ex2_cfg, SmartCacher.new, ex_ramp]

theorem ex2_bucket1 : build_bucket ex2_cfg 0 [0, 3 / 4, 1] 2 5 1 =
    .ok { allocated := 4, low_wall := 3 / 4, high_wall := 9 / 8,
          bucket := [5 / 16, 7 / 16, 9 / 16, 5 / 8],
          actual_bucket_elems := 4, bucket_granularity := 1 / 8 } := by
  unfold build_bucket bucket_stride
  rw [ex2_est]
  norm_num [fill_loop, extend_past, safety, ex2_cfg, SmartCacher.new, ex_ramp]

theorem ex2_alloc (i : Nat) : alloc_bucket ex2_cfg 0 [0, 3 / 4, 1] 2 5 i =
    build_bucket ex2_cfg 0 [0, 3 / 4, 1] 2 5 i := by
  unfold alloc_bucket
  rw [ex2_est, if_pos (by decide)]

theorem ex2_init : ex2_cfg.init 0 5 = .ok ex2_table := by
  unfold SmartCacher.init
  rw [ex2_segmentation]
  simp only [List.range_succ, List.range_zero, List.nil_append, List.singleton_append,
    alloc_loop, ex2_alloc, ex2_bucket0, ex2_bucket1]
  simp [ex2_table, ex2_cfg, SmartCacher.new]

theorem ex_flat_segmentation : segmentation ex_flat 2 = some ([0, 1], 1) := by
  norm_num [segmentation, seg_loop, seg_start, seg_step, ex_flat, SmartCacher.new,
    belongs_in_bucket]

/-- C1: on a table built by `init` and for a key inside the domain, the search loop of `retrieve`
stops within `_num_buckets` iterations, never takes `mid_bucket - 1` at `mid_bucket = 0`
(the ghost flag `wrapped` stays down), and stops at a bucket whose recorded walls contain the
key. -/
theorem smart_search_finds_covering_bucket (c : SmartCacher) (nan_cast fuel : Nat)
    (t : SmartCacher) (h : c.init nan_cast fuel = .ok t) (x : ℚ)
    (hlo : c._input_range_start ≤ x) (hhi : x ≤ c._input_range_end) :
    ∃ s : SearchState,
      (∀ n, t._num_buckets ≤ n → search_loop t x n (search_start t) = .ok s) ∧
      s.found = true ∧ s.wrapped = false ∧ s.found_bucket < t._num_buckets ∧
      t._bucket_walls[2 * s.found_bucket]? = some s.smallest ∧
      t._bucket_walls[2 * s.found_bucket + 1]? = some s.biggest ∧
      s.smallest ≤ x ∧ x ≤ s.biggest :=
  search_covering c nan_cast fuel t h x hlo hhi

/-- Witness for C1: the key `1`, the domain end, in the two-bucket example table. -/
theorem smart_search_finds_covering_bucket_witness :
    ex2_cfg.init 0 5 = .ok ex2_table ∧ ex2_cfg._input_range_start ≤ (1 : ℚ) ∧
    (1 : ℚ) ≤ ex2_cfg._input_range_end ∧
    ∃ s : SearchState,
      (∀ n, ex2_table._num_buckets ≤ n →
        search_loop ex2_table 1 n (search_start ex2_table) = .ok s) ∧
      s.found = true ∧ s.wrapped = false ∧ s.found_bucket < ex2_table._num_buckets ∧
      ex2_table._bucket_walls[2 * s.found_bucket]? = some s.smallest ∧
      ex2_table._bucket_walls[2 * s.found_bucket + 1]? = some s.biggest ∧
      s.smallest ≤ 1 ∧ 1 ≤ s.biggest :=
  ⟨ex2_init, by simp [ex2_cfg, SmartCacher.new], by simp [ex2_cfg, SmartCacher.new],
    smart_search_finds_covering_bucket ex2_cfg 0 5 ex2_table ex2_init 1
      (by simp [ex2_cfg, SmartCacher.new]) (by simp [ex2_cfg, SmartCacher.new])⟩

/-- C2: on a table built by `init`, for every bucket `b` and every key between the recorded
walls of `b`, the in-bucket index computed by `retrieve` is below the number of samples stored
in the bucket, which is also the length of its array. -/
theorem smart_index_below_bucket_size (c : SmartCacher) (nan_cast fuel : Nat) (t : SmartCacher)
    (h : c.init nan_cast fuel = .ok t) (b : Nat) (hb : b < t._num_buckets) :
    ∃ (lo hi g : ℚ) (n : Nat) (bucket : List ℚ),
      t._bucket_walls[2 * b]? = some lo ∧ t._bucket_walls[2 * b + 1]? = some hi ∧
      t._bucket_granularities[b]? = some g ∧ t._bucket_sizes[b]? = some n ∧
      t._cache[b]? = some bucket ∧ bucket.length = n ∧
      ∀ x : ℚ, lo ≤ x → x ≤ hi → minibucket_ind x lo g < n :=
  index_in_bucket c nan_cast fuel t h b hb

/-- Witness for C2: bucket `0` of the example table. -/
theorem smart_index_below_bucket_size_witness :
    ex_cfg.init 0 4 = .ok ex_table ∧ 0 < ex_table._num_buckets ∧
    ∃ (lo hi g : ℚ) (n : Nat) (bucket : List ℚ),
      ex_table._bucket_walls[2 * 0]? = some lo ∧ ex_table._bucket_walls[2 * 0 + 1]? = some hi ∧
      ex_table._bucket_granularities[0]? = some g ∧ ex_table._bucket_sizes[0]? = some n ∧
      ex_table._cache[0]? = some bucket ∧ bucket.length = n ∧
      ∀ x : ℚ, lo ≤ x → x ≤ hi → minibucket_ind x lo g < n :=
  ⟨ex_init, by decide,
    smart_index_below_bucket_size ex_cfg 0 4 ex_table ex_init 0 (by decide)⟩

/-- C3, with arithmetic taken as exact: for a uniform table whose capacity is at least one and
a value of `int`, over a non-empty domain, `init` returns a table with `_size` slots; every
key from the domain start up to but excluding the domain end gives a slot index in
`0 .. _size - 1` and `retrieve` returns one of the stored samples; at the domain end the index
is exactly `_size`, one past the last slot, and `retrieve` reads outside the array. -/
theorem original_retrieve_in_range (c : OriginalCacher) (hN : 1 ≤ c._size)
    (hmax : (c._size : Int) ≤ INT_MAX)
    (hse : c._input_range_start < c._input_range_end) :
    ∃ t : OriginalCacher, c.init = some t ∧ t._cache.length = c._size ∧
      (∀ x : ℚ, c._input_range_start ≤ x → x < c._input_range_end →
        ∃ ind : Int, t.retrieve_ind x = some ind ∧ 0 ≤ ind ∧ ind < (c._size : Int) ∧
          ∃ v, (t.retrieve x).1 = some v ∧ v ∈ t._cache) ∧
      t.retrieve_ind c._input_range_end = some (c._size : Int) ∧
      (t.retrieve c._input_range_end).1 = none := by
  have hs := original_stride_pos c hN hse
  have hNpos : (0 : ℚ) < (c._size : ℚ) := by exact_mod_cast hN
  have hend : ⌊(c._input_range_end - c._input_range_start) /
      ((c._input_range_end - c._input_range_start) / (c._size : ℚ))⌋₊ = c._size := by
    have : (c._input_range_end - c._input_range_start) /
        ((c._input_range_end - c._input_range_start) / (c._size : ℚ)) = (c._size : ℚ) := by
      have hd : c._input_range_end - c._input_range_start ≠ 0 := by linarith
      field_simp
    rw [this, Nat.floor_natCast]
  refine ⟨c.init_loop, original_init_some c hmax, by simp [OriginalCacher.init_loop], ?_, ?_,
    ?_⟩
  · intro x hx hxe
    have hind := original_ind_eq c hN hmax hse x hx hxe.le
    have hlt := original_ind_lt c hN hse x hx hxe
    refine ⟨_, hind, Int.natCast_nonneg _, by exact_mod_cast hlt, ?_⟩
    refine ⟨c.init_slot ⌊(x - c._input_range_start) /
      ((c._input_range_end - c._input_range_start) / (c._size : ℚ))⌋₊, ?_, ?_⟩
    · rw [original_retrieve_eq c hN hmax hse x hx hxe.le]
      exact original_init_cache c _ hlt
    · exact List.getElem?_mem (original_init_cache c _ hlt)
  · rw [original_ind_eq c hN hmax hse _ hse.le (le_refl _), hend]
  · rw [original_retrieve_eq c hN hmax hse _ hse.le (le_refl _), hend]
    simp [OriginalCacher.init_loop]

/-- Witness for the amended C3: the four-slot table, at the key `1 / 2` and at the domain
end. -/
theorem original_retrieve_in_range_witness :
    1 ≤ ex_uniform4._size ∧ (ex_uniform4._size : Int) ≤ INT_MAX ∧
    ex_uniform4._input_range_start < ex_uniform4._input_range_end ∧
    ∃ t : OriginalCacher, ex_uniform4.init = some t ∧ t._cache.length = ex_uniform4._size ∧
      (∃ ind : Int, t.retrieve_ind (1 / 2) = some ind ∧ 0 ≤ ind ∧
        ind < (ex_uniform4._size : Int) ∧
        ∃ v, (t.retrieve (1 / 2)).1 = some v ∧ v ∈ t._cache) ∧
      t.retrieve_ind ex_uniform4._input_range_end = some (ex_uniform4._size : Int) ∧
      (t.retrieve ex_uniform4._input_range_end).1 = none := by
  have hN : 1 ≤ ex_uniform4._size := by decide
  have hmax : (ex_uniform4._size : Int) ≤ INT_MAX := by decide
  have hse : ex_uniform4._input_range_start < ex_uniform4._input_range_end := by
    simp [ex_uniform4, OriginalCacher.new]
  obtain ⟨t, ht, hlen, hin, hend, hout⟩ := original_retrieve_in_range ex_uniform4 hN hmax hse
  exact ⟨hN, hmax, hse, t, ht, hlen,
    hin (1 / 2) (by simp [ex_uniform4, OriginalCacher.new])
      (by norm_num [ex_uniform4, OriginalCacher.new]), hend, hout⟩

/-- Counterexample to C3 as stated.  In exact arithmetic: in the one-slot table over `[0, 1]`
the key `1`, the domain end, gives index `1`, which is not a slot, and `retrieve` reads outside
the array.  In `double` arithmetic the same happens below the domain end: in the three-slot
table over `[0, 1]` the key `1 - 2 ^ (-53)`, the largest `double` below `1`, gives the quotient
`3.0` and index `3`, which is not a slot.  With `2 ^ 31 + 1` slots the counter `int i` of
`init` would have to pass `INT_MAX`, and `init` has no defined result. -/
theorem original_retrieve_end_out_of_range :
    (1 ≤ ex_uniform._size ∧ ex_uniform._input_range_start < ex_uniform._input_range_end ∧
      ex_uniform._input_range_start ≤ (1 : ℚ) ∧ (1 : ℚ) ≤ ex_uniform._input_range_end ∧
      ∃ t : OriginalCacher, ex_uniform.init = some t ∧ t.retrieve_ind 1 = some 1 ∧
        ¬ ((1 : Int) < (ex_uniform._size : Int)) ∧ (t.retrieve 1).1 = none) ∧
    (1 ≤ ex_uniform3._size ∧ ex_uniform3._input_range_start < ex_uniform3._input_range_end ∧
      ex_uniform3._input_range_start ≤ (1 - 1 / 2 ^ 53 : ℚ) ∧
      (1 - 1 / 2 ^ 53 : ℚ) ≤ ex_uniform3._input_range_end ∧
      ex_uniform3.retrieve_ind_double (1 - 1 / 2 ^ 53) = some 3 ∧
      ¬ ((3 : Int) < (ex_uniform3._size : Int))) ∧
    (1 ≤ ex_uniform_wide._size ∧
      ex_uniform_wide._input_range_start < ex_uniform_wide._input_range_end ∧
      ex_uniform_wide.init = none) := by
  have hN : 1 ≤ ex_uniform._size := by decide
  have hmax : (ex_uniform._size : Int) ≤ INT_MAX := by decide
  have hse : ex_uniform._input_range_start < ex_uniform._input_range_end := by
    simp [ex_uniform, OriginalCacher.new]
  have hend : ex_uniform._input_range_end = 1 := rfl
  have hind := original_ind_eq ex_uniform hN hmax hse 1 (by simp [ex_uniform, OriginalCacher.new])
    (by simp [ex_uniform, OriginalCacher.new])
  have hfl : ⌊((1 : ℚ) - ex_uniform._input_range_start) /
      ((ex_uniform._input_range_end - ex_uniform._input_range_start) /
        (ex_uniform._size : ℚ))⌋₊ = 1 := by
    simp [ex_uniform, OriginalCacher.new]
  rw [hfl] at hind
  have hret := original_retrieve_eq ex_uniform hN hmax hse 1
    (by simp [ex_uniform, OriginalCacher.new]) (by simp [ex_uniform, OriginalCacher.new])
  rw [hfl] at hret
  refine ⟨⟨hN, hse, by simp [ex_uniform, OriginalCacher.new],
    by simp [ex_uniform, OriginalCacher.new], ex_uniform.init_loop,
    original_init_some ex_uniform hmax, hind, by decide, ?_⟩, ?_,
    ⟨by decide, by simp [ex_uniform_wide, OriginalCacher.new], ex_uniform_wide_init⟩⟩
  · rw [hret]
    simp [OriginalCacher.init_loop, ex_uniform, OriginalCacher.new]
  · exact ⟨by decide, by simp [ex_uniform3, OriginalCacher.new],
      by norm_num [ex_uniform3, OriginalCacher.new],
      by norm_num [ex_uniform3, OriginalCacher.new], ex_uniform3_ind_double, by decide⟩

/-- C4, with arithmetic taken as exact: for a uniform table whose capacity is at least one and
a value of `int`, over a non-empty domain, `init` returns a table that holds
`f (start + (i + offset) * stride)` in slot `i`, and for a key from the domain start up to but
excluding the domain end `retrieve` returns the content of slot `⌊(x - start) / stride⌋`,
which is `f` at that slot's sample position. -/
theorem original_slots_and_retrieve (c : OriginalCacher) (hN : 1 ≤ c._size)
    (hmax : (c._size : Int) ≤ INT_MAX)
    (hse : c._input_range_start < c._input_range_end) :
    ∃ t : OriginalCacher, c.init = some t ∧
      (∀ i, i < c._size → t._cache[i]? = some (c._cached_function (c._input_range_start +
        ((i : ℚ) + (if c._use_middle then 1 / 2 else 0)) *
          ((c._input_range_end - c._input_range_start) / (c._size : ℚ))))) ∧
      (∀ x : ℚ, c._input_range_start ≤ x → x < c._input_range_end →
        (t.retrieve x).1 = t._cache[⌊(x - c._input_range_start) /
          ((c._input_range_end - c._input_range_start) / (c._size : ℚ))⌋₊]? ∧
        (t.retrieve x).1 = some (c._cached_function (c._input_range_start +
          ((⌊(x - c._input_range_start) /
              ((c._input_range_end - c._input_range_start) / (c._size : ℚ))⌋₊ : ℚ) +
            (if c._use_middle then 1 / 2 else 0)) *
          ((c._input_range_end - c._input_range_start) / (c._size : ℚ))))) := by
  have hslot : ∀ i, i < c._size → c.init_loop._cache[i]? = some (c._cached_function
      (c._input_range_start + ((i : ℚ) + (if c._use_middle then 1 / 2 else 0)) *
        ((c._input_range_end - c._input_range_start) / (c._size : ℚ)))) := by
    intro i hi
    rw [original_init_cache c i hi]
    unfold OriginalCacher.init_slot
    simp only []
    rw [add_comm]
  refine ⟨c.init_loop, original_init_some c hmax, hslot, ?_⟩
  intro x hx hxe
  have hlt := original_ind_lt c hN hse x hx hxe
  have hret := original_retrieve_eq c hN hmax hse x hx hxe.le
  exact ⟨hret, by rw [hret]; exact hslot _ hlt⟩

/-- Witness for the amended C4: the four-slot table filled at cell middles; slot `i` holds
`(i + 1 / 2) / 4`, and the key `1 / 2` reads slot `2`. -/
theorem original_slots_and_retrieve_witness :
    1 ≤ ex_uniform4._size ∧ (ex_uniform4._size : Int) ≤ INT_MAX ∧
    ex_uniform4._input_range_start < ex_uniform4._input_range_end ∧
    ∃ t : OriginalCacher, ex_uniform4.init = some t ∧
      t._cache[0]? = some (1 / 8) ∧ t._cache[1]? = some (3 / 8) ∧
      t._cache[2]? = some (5 / 8) ∧ t._cache[3]? = some (7 / 8) ∧
      (t.retrieve (1 / 2)).1 = t._cache[2]? ∧ (t.retrieve (1 / 2)).1 = some (5 / 8) := by
  have hN : 1 ≤ ex_uniform4._size := by decide
  have hmax : (ex_uniform4._size : Int) ≤ INT_MAX := by decide
  have hse : ex_uniform4._input_range_start < ex_uniform4._input_range_end := by
    simp [ex_uniform4, OriginalCacher.new]
  obtain ⟨t, ht, hslot, hret⟩ := original_slots_and_retrieve ex_uniform4 hN hmax hse
  have hfl : ⌊((1 / 2 : ℚ) - ex_uniform4._input_range_start) /
      ((ex_uniform4._input_range_end - ex_uniform4._input_range_start) /
        (ex_uniform4._size : ℚ))⌋₊ = 2 := by
    have e : ((1 / 2 : ℚ) - ex_uniform4._input_range_start) /
      ((ex_uniform4._input_range_end - ex_uniform4._input_range_start) /
        (ex_uniform4._size : ℚ)) = ((2 : Nat) : ℚ) := by
      norm_num [ex_uniform4, OriginalCacher.new]
    rw [e, Nat.floor_natCast]
  have h0 := hslot 0 (by decide)
  have h1 := hslot 1 (by decide)
  have h2 := hslot 2 (by decide)
  have h3 := hslot 3 (by decide)
  obtain ⟨hr1, hr2⟩ := hret (1 / 2) (by simp [ex_uniform4, OriginalCacher.new])
    (by norm_num [ex_uniform4, OriginalCacher.new])
  rw [hfl] at hr1 hr2
  refine ⟨hN, hmax, hse, t, ht, ?_, ?_, ?_, ?_, hr1, ?_⟩
  · rw [h0]; norm_num [ex_uniform4, OriginalCacher.new]
  · rw [h1]; norm_num [ex_uniform4, OriginalCacher.new]
  · rw [h2]; norm_num [ex_uniform4, OriginalCacher.new]
  · rw [h3]; norm_num [ex_uniform4, OriginalCacher.new]
  · rw [hr2]; norm_num [ex_uniform4, OriginalCacher.new]

/-- Counterexample to C4 as stated, in `double` arithmetic, on the three-slot table over
`[0, 1]`, whose stride `1 / 3` is rounded to `6004799503160661 / 2 ^ 54`.  The key
`1 - 2 ^ (-53)` lies below the domain end and belongs to slot `⌊(x - start) / stride⌋ = 2`,
but the rounded quotient is `3.0` and `retrieve` reads index `3`, which is not a slot.  The key
`6004799503160661 / 2 ^ 53`, the largest `double` below `2 / 3`, belongs to slot `1`, but the
rounded quotient is `2.0` and `retrieve` reads slot `2`.  With `2 ^ 31 + 1` slots the counter
`int i` of `init` would have to pass `INT_MAX` to write the last slot, and `init` has no
defined result. -/
theorem original_retrieve_double_wrong_slot :
    1 ≤ ex_uniform3._size ∧ ex_uniform3._input_range_start < ex_uniform3._input_range_end ∧
    (ex_uniform3._input_range_start ≤ (1 - 1 / 2 ^ 53 : ℚ) ∧
      (1 - 1 / 2 ^ 53 : ℚ) < ex_uniform3._input_range_end ∧
      ⌊((1 - 1 / 2 ^ 53 : ℚ) - ex_uniform3._input_range_start) /
        ((ex_uniform3._input_range_end - ex_uniform3._input_range_start) /
          (ex_uniform3._size : ℚ))⌋₊ = 2 ∧
      ex_uniform3.retrieve_ind_double (1 - 1 / 2 ^ 53) = some 3 ∧
      ¬ ((3 : Int) < (ex_uniform3._size : Int))) ∧
    (ex_uniform3._input_range_start ≤ (6004799503160661 / 2 ^ 53 : ℚ) ∧
      (6004799503160661 / 2 ^ 53 : ℚ) < ex_uniform3._input_range_end ∧
      ⌊((6004799503160661 / 2 ^ 53 : ℚ) - ex_uniform3._input_range_start) /
        ((ex_uniform3._input_range_end - ex_uniform3._input_range_start) /
          (ex_uniform3._size : ℚ))⌋₊ = 1 ∧
      ex_uniform3.retrieve_ind_double (6004799503160661 / 2 ^ 53) = some 2) ∧
    (1 ≤ ex_uniform_wide._size ∧
      ex_uniform_wide._input_range_start < ex_uniform_wide._input_range_end ∧
      ex_uniform_wide.init = none) := by
  refine ⟨by decide, by simp [ex_uniform3, OriginalCacher.new],
    ⟨by norm_num [ex_uniform3, OriginalCacher.new],
      by norm_num [ex_uniform3, OriginalCacher.new], ?_, ex_uniform3_ind_double, by decide⟩,
    ⟨by norm_num [ex_uniform3, OriginalCacher.new],
      by norm_num [ex_uniform3, OriginalCacher.new], ?_, ex_uniform3_ind_double_mid⟩,
    ⟨by decide, by simp [ex_uniform_wide, OriginalCacher.new], ex_uniform_wide_init⟩⟩
  · rw [Nat.floor_eq_iff (by norm_num [ex_uniform3, OriginalCacher.new])]
    norm_num [ex_uniform3, OriginalCacher.new]
  · rw [Nat.floor_eq_iff (by norm_num [ex_uniform3, OriginalCacher.new])]
    norm_num [ex_uniform3, OriginalCacher.new]

/-- C5, as the code has it, with arithmetic taken as exact: when `init` returns a table for a
configuration with `start < end` and the total roughness `sum_of_dy_dxs` is not zero, every
quotient of `init` has a non-zero divisor, and for every key in the domain `retrieve` returns
a sample stored in the table. -/
theorem smart_init_divisions_defined (c : SmartCacher) (nan_cast fuel : Nat) (t : SmartCacher)
    (walls : List ℚ) (K : Nat) (h : c.init nan_cast fuel = .ok t)
    (hseg : segmentation c fuel = some (walls, K))
    (hse : c._input_range_start < c._input_range_end)
    (hsum : sum_of_dy_dxs (abs_dy_dx_per_bucket c walls K) ≠ some 0) :
    divisions_defined c walls K = true ∧
    (∀ i, i < K → 0 < bucket_stride c nan_cast walls K i) ∧
    ∀ x : ℚ, c._input_range_start ≤ x → x ≤ c._input_range_end →
      ∃ v : ℚ, (∀ n, t._num_buckets ≤ n → (t.retrieve x n).1 = .ok v) ∧
        ∃ bucket ∈ t._cache, v ∈ bucket := by
  have hpos : ∀ i, i < K → 0 < bucket_stride c nan_cast walls K i := fun i hi =>
    ((init_ok_iff c nan_cast fuel walls K hseg).mp ⟨fuel, t, h⟩ i hi).2
  refine ⟨divisions_defined_of_widths c walls K hse
    (fun i hi => (stride_pos_iff c nan_cast walls K i).mp (hpos i hi)) hsum, hpos, ?_⟩
  intro x hlo hhi
  exact retrieve_returns_sample c nan_cast fuel t h x hlo hhi

/-- Witness for the amended C5: the identity on `[0, 1]`, whose total roughness is `1`. -/
theorem smart_init_divisions_defined_witness :
    ex_cfg.init 0 4 = .ok ex_table ∧ segmentation ex_cfg 4 = some ([0, 1], 1) ∧
    ex_cfg._input_range_start < ex_cfg._input_range_end ∧
    sum_of_dy_dxs (abs_dy_dx_per_bucket ex_cfg [0, 1] 1) ≠ some 0 ∧
    divisions_defined ex_cfg [0, 1] 1 = true :=
  have hse : ex_cfg._input_range_start < ex_cfg._input_range_end := by
    simp [ex_cfg, SmartCacher.new]
  have hsum : sum_of_dy_dxs (abs_dy_dx_per_bucket ex_cfg [0, 1] 1) ≠ some 0 := by
    rw [ex_sum]; simp
  ⟨ex_init, ex_segmentation, hse, hsum,
    (smart_init_divisions_defined ex_cfg 0 4 ex_table [0, 1] 1 ex_init ex_segmentation
      hse hsum).1⟩

/-- Counterexample to C5 as stated: for the constant function `0` on `[0, 1]` with probe step
`1` and tolerance `1`, the total roughness is `0` and is the divisor of the blended estimate,
which then has no value. -/
theorem smart_init_divides_by_zero_roughness :
    ex_flat._input_range_start < ex_flat._input_range_end ∧ 0 < ex_flat._granularity ∧
    0 < ex_flat._max_grad_error ∧
    segmentation ex_flat 2 = some ([0, 1], 1) ∧
    sum_of_dy_dxs (abs_dy_dx_per_bucket ex_flat [0, 1] 1) = some 0 ∧
    raw_est ex_flat [0, 1] (abs_dy_dx_per_bucket ex_flat [0, 1] 1)
      (sum_of_dy_dxs (abs_dy_dx_per_bucket ex_flat [0, 1] 1)) 0 = none ∧
    divisions_defined ex_flat [0, 1] 1 = false := by
  have hsum : sum_of_dy_dxs (abs_dy_dx_per_bucket ex_flat [0, 1] 1) = some 0 := by
    simp [sum_of_dy_dxs, abs_dy_dx_per_bucket, weight, safe_div, nan_add, ex_flat,
      SmartCacher.new, List.range_succ]
  have hraw : raw_est ex_flat [0, 1] (abs_dy_dx_per_bucket ex_flat [0, 1] 1)
      (sum_of_dy_dxs (abs_dy_dx_per_bucket ex_flat [0, 1] 1)) 0 = none := by
    rw [hsum]
    simp [raw_est, abs_dy_dx_per_bucket, weight, safe_div, ex_flat, SmartCacher.new,
      List.range_succ]
  refine ⟨by simp [ex_flat, SmartCacher.new], by simp [ex_flat, SmartCacher.new],
    by simp [ex_flat, SmartCacher.new], ex_flat_segmentation, hsum, hraw, ?_⟩
  unfold divisions_defined
  simp only [List.range_succ, List.range_zero, List.nil_append, List.all_cons, List.all_nil, hraw]
  simp

/-- C7, as the code has it: for a configuration with `start ≤ end` and a probe step that is not
positive, the condition of the probe loop holds after any number of iterations, so for every
iteration bound `init` is still inside the probe loop: it neither fails its assertion nor
returns a table. -/
theorem smart_init_nonpositive_granularity_never_returns (c : SmartCacher)
    (hse : c._input_range_start ≤ c._input_range_end) (hg : c._granularity ≤ 0) :
    (∀ n : Nat, ((seg_step c)^[n] (seg_start c)).curr_x ≤ c._input_range_end) ∧
    (∀ fuel : Nat, seg_loop c fuel (seg_start c) = none) ∧
    (∀ nan_cast fuel : Nat, c.init nan_cast fuel = .error .outOfFuel) ∧
    (∀ nan_cast fuel : Nat, c.init nan_cast fuel ≠ .error .assertionFailed) ∧
    (∀ (nan_cast fuel : Nat) (t : SmartCacher), c.init nan_cast fuel ≠ .ok t) := by
  refine ⟨seg_iterate_below_end c hse hg, fun fuel => ?_, init_diverges c hse hg, ?_, ?_⟩
  · exact seg_loop_diverges c hg fuel (seg_start c)
      (by show c._input_range_start + c._granularity ≤ c._input_range_end; linarith)
  · intro nan_cast fuel
    rw [init_diverges c hse hg]
    simp
  · intro nan_cast fuel t
    rw [init_diverges c hse hg]
    simp

/-- Witness for the amended C7: the identity on `[0, 1]` with probe step `0`. -/
theorem smart_init_nonpositive_granularity_never_returns_witness :
    ex_stuck._input_range_start ≤ ex_stuck._input_range_end ∧ ex_stuck._granularity ≤ 0 ∧
    ∀ nan_cast fuel : Nat, ex_stuck.init nan_cast fuel = .error .outOfFuel :=
  have hse : ex_stuck._input_range_start ≤ ex_stuck._input_range_end := by
    simp [ex_stuck, SmartCacher.new]
  have hg : ex_stuck._granularity ≤ 0 := by simp [ex_stuck, SmartCacher.new]
  ⟨hse, hg, (smart_init_nonpositive_granularity_never_returns ex_stuck hse hg).2.2.1⟩

/-- Counterexample to C7 as stated: with probe step `0` on `[0, 1]`, no iteration bound makes
`init` fail its assertion; it is always still probing. -/
theorem smart_init_zero_granularity_no_abort :
    ex_stuck._input_range_start ≤ ex_stuck._input_range_end ∧ ex_stuck._granularity ≤ 0 ∧
    ¬ (∃ fuel : Nat, ex_stuck.init 0 fuel = .error .assertionFailed) ∧
    ¬ (∃ fuel : Nat, seg_loop ex_stuck fuel (seg_start ex_stuck) ≠ none) := by
  have hse : ex_stuck._input_range_start ≤ ex_stuck._input_range_end := by
    simp [ex_stuck, SmartCacher.new]
  have hg : ex_stuck._granularity ≤ 0 := by simp [ex_stuck, SmartCacher.new]
  refine ⟨hse, hg, ?_, ?_⟩
  · rintro ⟨fuel, h⟩
    rw [init_diverges ex_stuck hse hg] at h
    cases h
  · rintro ⟨fuel, h⟩
    exact h (seg_loop_diverges ex_stuck hg fuel (seg_start ex_stuck)
      (by show ex_stuck._input_range_start + ex_stuck._granularity ≤ ex_stuck._input_range_end
          linarith))

/-- C8: on a table built by `init`, `get_size` is the total number of samples stored in the
bucket arrays (and the total of `_bucket_sizes`), and it is at least twice the number of
buckets. -/
theorem smart_get_size_sum (c : SmartCacher) (nan_cast fuel : Nat) (t : SmartCacher)
    (h : c.init nan_cast fuel = .ok t) :
    t.get_size = (t._cache.map List.length).sum ∧
    t.get_size = t._bucket_sizes.sum ∧
    t._cache.length = t._num_buckets ∧
    t._bucket_sizes.length = t._num_buckets ∧
    2 * t._num_buckets ≤ t.get_size := by
  obtain ⟨walls, K, bs, _, hl, hget, _, _, hK, hc, hs, _, _, ha⟩ :=
    init_spec c nan_cast fuel t h
  have hb : ∀ b ∈ bs,
      b.bucket.length = b.actual_bucket_elems ∧ 2 ≤ b.actual_bucket_elems := by
    intro b hb
    obtain ⟨⟨j, hj⟩, rfl⟩ := List.mem_iff_get.mp hb
    obtain ⟨_, _, _, _, _, _, m, hm, _, h1, h2⟩ :=
      build_bucket_spec c nan_cast walls _ fuel j _ (hget j hj)
    exact ⟨by rw [h1, h2], by rw [h1]; omega⟩
  have hsum : (bs.map (fun b => b.bucket.length)).sum =
      (bs.map (fun b => b.actual_bucket_elems)).sum := by
    congr 1
    exact List.map_congr_left fun b hb1 => (hb b hb1).1
  have hge : ∀ l : List BucketData, (∀ b ∈ l, 2 ≤ b.actual_bucket_elems) →
      2 * l.length ≤ (l.map (fun b => b.actual_bucket_elems)).sum := by
    intro l
    induction l with
    | nil => intro _; simp
    | cons b rest ih =>
      intro hall
      have h1 := hall b (List.mem_cons_self _ _)
      have h2 := ih fun x hx => hall x (List.mem_cons_of_mem _ hx)
      simp only [List.length_cons, List.map_cons, List.sum_cons]
      omega
  unfold SmartCacher.get_size
  rw [ha, foldl_sizes, hc, hs, hK, ← hl]
  refine ⟨?_, by simp, by simp, by simp, ?_⟩
  · rw [List.map_map, zero_add]
    exact hsum.symm
  · rw [zero_add]
    exact hge bs fun b hb1 => (hb b hb1).2

/-- Witness for C8: the two-bucket example table stores `8` samples. -/
theorem smart_get_size_sum_witness :
    ex2_cfg.init 0 5 = .ok ex2_table ∧
    ex2_table.get_size = (ex2_table._cache.map List.length).sum ∧
    2 * ex2_table._num_buckets ≤ ex2_table.get_size :=
  ⟨ex2_init, (smart_get_size_sum ex2_cfg 0 5 ex2_table ex2_init).1,
    (smart_get_size_sum ex2_cfg 0 5 ex2_table ex2_init).2.2.2.2⟩

/-- C9: on a table built by `init`, the recorded walls (bucket `i` at `[2 * i, 2 * i + 1]` of
`_bucket_walls`) leave no gap between adjacent buckets, the low walls increase strictly, the
first low wall is the domain start and the last high wall is at least the domain end. -/
theorem smart_walls_contiguous (c : SmartCacher) (nan_cast fuel : Nat) (t : SmartCacher)
    (h : c.init nan_cast fuel = .ok t) :
    1 ≤ t._num_buckets ∧ t._bucket_walls.length = 2 * t._num_buckets ∧
    (∀ i, i + 1 < t._num_buckets →
      t._bucket_walls.getD (2 * i + 1) 0 ≥ t._bucket_walls.getD (2 * (i + 1)) 0 ∧
      t._bucket_walls.getD (2 * i) 0 < t._bucket_walls.getD (2 * (i + 1)) 0) ∧
    t._bucket_walls.getD 0 0 = c._input_range_start ∧
    t._bucket_walls.getD (2 * (t._num_buckets - 1) + 1) 0 ≥ c._input_range_end ∧
    ∀ x, c._input_range_start ≤ x → x ≤ c._input_range_end →
      ∃ i, i < t._num_buckets ∧ t._bucket_walls.getD (2 * i) 0 ≤ x ∧
        x ≤ t._bucket_walls.getD (2 * i + 1) 0 := by
  obtain ⟨hK, hwalls, hgap, hstart, hend⟩ := init_walls c nan_cast fuel t h
  obtain ⟨_, _, _, _, _, _, hlen, _⟩ := init_bucket_fields c nan_cast fuel t h
  refine ⟨hK, hlen,
    fun i hi => ⟨(hgap i hi).le, init_low_walls_increase c nan_cast fuel t h i hi⟩,
    hstart, hend.le, ?_⟩
  intro x hx1 hx2
  obtain ⟨s, _, _, _, hb, w1, w2, h1, h2⟩ :=
    search_loop_finds t x t._num_buckets
      (fun i => t._bucket_walls.getD (2 * i) 0) (fun i => t._bucket_walls.getD (2 * i + 1) 0)
      hwalls (fun i hi => (hgap i hi).le) (t._num_buckets - 1)
      { leftmost_bucket := 0, rightmost_bucket := t._num_buckets - 1, found_bucket := 0,
        found := false, smallest := 0, biggest := 0, wrapped := false } rfl rfl
      (by show 0 ≤ t._num_buckets - 1; omega)
      (by show t._num_buckets - 1 < t._num_buckets; omega)
      (by show t._num_buckets - 1 - 0 ≤ t._num_buckets - 1; omega)
      (by show t._bucket_walls.getD (2 * 0) 0 ≤ x; rw [hstart]; exact hx1)
      (by show x ≤ t._bucket_walls.getD (2 * (t._num_buckets - 1) + 1) 0
          exact le_trans hx2 hend.le)
  exact ⟨s.found_bucket, hb, h1, h2⟩

/-- Witness for C9: the walls `[0, 9 / 8]` and `[3 / 4, 9 / 8]` of the two-bucket example
table. -/
theorem smart_walls_contiguous_witness :
    ex2_cfg.init 0 5 = .ok ex2_table ∧ 0 + 1 < ex2_table._num_buckets ∧
    (ex2_table._bucket_walls.getD (2 * 0 + 1) 0 ≥ ex2_table._bucket_walls.getD (2 * (0 + 1)) 0 ∧
      ex2_table._bucket_walls.getD (2 * 0) 0 < ex2_table._bucket_walls.getD (2 * (0 + 1)) 0) ∧
    ex2_table._bucket_walls.getD 0 0 = ex2_cfg._input_range_start ∧
    ex2_table._bucket_walls.getD (2 * (ex2_table._num_buckets - 1) + 1) 0 ≥
      ex2_cfg._input_range_end :=
  have hw := smart_walls_contiguous ex2_cfg 0 5 ex2_table ex2_init
  ⟨ex2_init, by decide, hw.2.2.1 0 (by decide), hw.2.2.2.1, hw.2.2.2.2.1⟩

/-- C11: for a non-empty collection, `avg_function` returns the arithmetic mean, that is the
number of values times the result is their sum, and the collection is the same after the
call. -/
theorem avg_function_is_mean (values : List ℚ) (hne : values ≠ []) :
    avg_function values = values.sum / (values.length : ℚ) ∧
    (values.length : ℚ) * avg_function values = values.sum ∧
    (avg_function_run values).1 = avg_function values ∧
    (avg_function_run values).2 = values := by
  have hlen : (values.length : ℚ) ≠ 0 := by
    have : 0 < values.length := List.length_pos.mpr hne
    exact_mod_cast this.ne'
  have h1 : avg_function values = values.sum / (values.length : ℚ) := by
    unfold avg_function
    rw [foldl_add_eq_sum, zero_add]
  refine ⟨h1, ?_, rfl, rfl⟩
  rw [h1, mul_div_cancel₀ _ hlen]

/-- Witness for C11: the mean of `1, 2, 6` is `3`. -/
theorem avg_function_is_mean_witness :
    ([1, 2, 6] : List ℚ) ≠ [] ∧
    (([1, 2, 6] : List ℚ).length : ℚ) * avg_function [1, 2, 6] =
      ([1, 2, 6] : List ℚ).sum ∧
    avg_function [1, 2, 6] = 3 :=
  ⟨by simp, (avg_function_is_mean [1, 2, 6] (by simp)).2.1, by norm_num [avg_function]⟩

/-- C12: `belongs_in_bucket` accepts exactly when the bucket is empty or the gradient deviates
from the bucket average by strictly less than the tolerance, so a deviation equal to the
tolerance is rejected for a non-empty bucket; one iteration of the probe loop appends an
accepted gradient to the current (last) bucket and leaves the walls as they are, and for a
rejected gradient opens a new bucket holding just that gradient, with a wall at the current
probe position. -/
theorem belongs_in_bucket_rule :
    (∀ (bucket : List ℚ) (avg : List ℚ → ℚ) (grad tol : ℚ),
      belongs_in_bucket bucket avg grad tol = true ↔
        bucket = [] ∨ |grad - avg bucket| < tol) ∧
    (∀ (bucket : List ℚ) (avg : List ℚ → ℚ) (grad tol : ℚ),
      bucket ≠ [] → |grad - avg bucket| = tol →
        belongs_in_bucket bucket avg grad tol = false) ∧
    (∀ (c : SmartCacher) (s : SegState) (closed : List (List ℚ)) (curr : List ℚ),
      s.buckets = closed ++ [curr] →
      belongs_in_bucket curr c._avg_function
        (c._cached_function s.curr_x - s.stored_ys.getLastD 0) c._max_grad_error = true →
      (seg_step c s).buckets =
        closed ++ [curr ++ [c._cached_function s.curr_x - s.stored_ys.getLastD 0]] ∧
      (seg_step c s).est_bucket_walls = s.est_bucket_walls) ∧
    (∀ (c : SmartCacher) (s : SegState) (closed : List (List ℚ)) (curr : List ℚ),
      s.buckets = closed ++ [curr] →
      belongs_in_bucket curr c._avg_function
        (c._cached_function s.curr_x - s.stored_ys.getLastD 0) c._max_grad_error = false →
      (seg_step c s).buckets =
        closed ++ [curr] ++ [[c._cached_function s.curr_x - s.stored_ys.getLastD 0]] ∧
      (seg_step c s).est_bucket_walls = s.est_bucket_walls ++ [s.curr_x]) := by
  refine ⟨?_, ?_, ?_, ?_⟩
  · intro bucket avg grad tol
    unfold belongs_in_bucket
    cases bucket with
    | nil => simp
    | cons x rest => simp
  · intro bucket avg grad tol hne heq
    unfold belongs_in_bucket
    cases bucket with
    | nil => exact absurd rfl hne
    | cons x rest => simp [heq]
  · intro c s closed curr hb hacc
    have hlast : s.buckets.getLastD [] = curr := by rw [hb]; simp
    unfold seg_step
    simp only [hlast, hacc, if_true]
    exact ⟨by rw [hb]; simp, trivial⟩
  · intro c s closed curr hb hrej
    have hlast : s.buckets.getLastD [] = curr := by rw [hb]; simp
    unfold seg_step
    simp only [hlast, hrej]
    exact ⟨by rw [hb]; simp, by simp⟩

/-- Witness for C12: the first gradient of the example configuration meets an empty bucket and
is accepted into it. -/
theorem belongs_in_bucket_rule_witness :
    (seg_start ex_cfg).buckets = [] ++ [[]] ∧
    (belongs_in_bucket [] ex_cfg._avg_function
      (ex_cfg._cached_function (seg_start ex_cfg).curr_x -
        (seg_start ex_cfg).stored_ys.getLastD 0) ex_cfg._max_grad_error = true) ∧
    (seg_step ex_cfg (seg_start ex_cfg)).buckets =
      [] ++ [[] ++ [ex_cfg._cached_function (seg_start ex_cfg).curr_x -
        (seg_start ex_cfg).stored_ys.getLastD 0]] ∧
    (seg_step ex_cfg (seg_start ex_cfg)).est_bucket_walls = (seg_start ex_cfg).est_bucket_walls :=
  ⟨rfl, rfl, belongs_in_bucket_rule.2.2.1 ex_cfg (seg_start ex_cfg) [] [] rfl rfl⟩

/-- C14, with arithmetic taken as exact: for `start ≤ end` and a positive probe step the first
part of `init` returns `K ≥ 1` buckets and `K + 1` nominal walls; the first wall is the domain
start, the last one the domain end, every wall in between is a probe position
`start + m * granularity` not above the domain end, the walls increase strictly up to index
`K - 1`, the last segment is not reversed, and the widths of the `K` segments add up to
`end - start`. -/
theorem segmentation_nominal_walls (c : SmartCacher)
    (hse : c._input_range_start ≤ c._input_range_end) (hg : 0 < c._granularity) :
    ∃ (fuel : Nat) (walls : List ℚ) (K : Nat),
      segmentation c fuel = some (walls, K) ∧
      (∀ (fuel1 : Nat) (r : List ℚ × Nat),
        segmentation c fuel1 = some r → r = (walls, K)) ∧
      1 ≤ K ∧ walls.length = K + 1 ∧
      walls.getD 0 0 = c._input_range_start ∧ walls.getD K 0 = c._input_range_end ∧
      (∀ i, 0 < i → i < K → walls.getD i 0 ≤ c._input_range_end ∧
        ∃ m : Nat, 1 ≤ m ∧
          walls.getD i 0 = c._input_range_start + (m : ℚ) * c._granularity) ∧
      (∀ i, i + 1 < K → walls.getD i 0 < walls.getD (i + 1) 0) ∧
      walls.getD (K - 1) 0 ≤ walls.getD K 0 ∧
      (∀ i, i < K → walls.getD i 0 ≤ walls.getD (i + 1) 0) ∧
      ∑ i in Finset.range K, (walls.getD (i + 1) 0 - walls.getD i 0) =
        c._input_range_end - c._input_range_start := by
  obtain ⟨fuel, ⟨walls, K⟩, hseg⟩ := segmentation_terminates c hg
  obtain ⟨hlen, hK, hw0, hwK⟩ := segmentation_spec c fuel walls K hseg
  obtain ⟨hinc, hle, hprobe⟩ := segmentation_sorted c hg hse fuel walls K hseg
  have hlast : walls.getD (K - 1) 0 ≤ walls.getD K 0 := by
    rw [hwK]
    exact hle (K - 1) (by omega)
  refine ⟨fuel, walls, K, hseg,
    fun fuel1 r h1 => (segmentation_unique c fuel fuel1 _ _ hseg h1).symm,
    hK, hlen, hw0, hwK, ?_, hinc, hlast, ?_, ?_⟩
  · intro i hi0 hiK
    refine ⟨hle i hiK, ?_⟩
    rcases hprobe i hiK with hs | hm
    · have h1 := walls_chain (fun j => walls.getD j 0) (K - 1)
        (fun j hj => hinc j (by omega)) i hi0 (by omega)
      simp only [hw0] at h1
      linarith
    · exact hm
  · intro i hi
    rcases Nat.lt_or_ge (i + 1) K with h1 | h1
    · exact (hinc i h1).le
    · have : i = K - 1 := by omega
      rw [this, show K - 1 + 1 = K by omega]
      exact hlast
  · rw [Finset.sum_range_sub (fun i => walls.getD i 0) K, hw0, hwK]

/-- Witness for the amended C14: the nominal walls `0, 3 / 4, 1` of the two-bucket example. -/
theorem segmentation_nominal_walls_witness :
    ex2_cfg._input_range_start ≤ ex2_cfg._input_range_end ∧ 0 < ex2_cfg._granularity ∧
    segmentation ex2_cfg 5 = some ([0, 3 / 4, 1], 2) ∧
    ∃ (fuel : Nat) (walls : List ℚ) (K : Nat),
      segmentation ex2_cfg fuel = some (walls, K) ∧ 1 ≤ K ∧ walls.length = K + 1 :=
  have hse : ex2_cfg._input_range_start ≤ ex2_cfg._input_range_end := by
    simp [ex2_cfg, SmartCacher.new]
  have hg : 0 < ex2_cfg._granularity := by simp [ex2_cfg, SmartCacher.new]
  have h := segmentation_nominal_walls ex2_cfg hse hg
  ⟨hse, hg, ex2_segmentation,
    h.imp fun _ h1 => h1.imp fun _ h2 => h2.imp fun _ h3 => ⟨h3.1, h3.2.2.1, h3.2.2.2.1⟩⟩

/-- Counterexample to C14 as stated, in `double` arithmetic: on `[10 ^ 16, 2 * 10 ^ 16]` with
probe step `1` the sum `10 ^ 16 + 1` is rounded back to `10 ^ 16`, so `curr_x` has the value
`10 ^ 16` at every test of the loop condition, which therefore always holds: the probe loop is
never left and no walls are produced, although the probe step is positive.  In exact
arithmetic the same loop returns. -/
theorem probe_loop_double_never_ends :
    ex_far._input_range_start ≤ ex_far._input_range_end ∧ 0 < ex_far._granularity ∧
    (∀ n : Nat, curr_x_double ex_far n = ex_far._input_range_start) ∧
    (∀ n : Nat, curr_x_double ex_far n ≤ ex_far._input_range_end) ∧
    ∃ (fuel : Nat) (r : List ℚ × Nat), segmentation ex_far fuel = some r := by
  have hg : 0 < ex_far._granularity := by simp [ex_far, SmartCacher.new]
  have hs : ex_far._input_range_start = 10 ^ 16 := by simp [ex_far, SmartCacher.new]
  have he : ex_far._input_range_end = 2 * 10 ^ 16 := by simp [ex_far, SmartCacher.new]
  refine ⟨by rw [hs, he]; norm_num, hg, fun n => by rw [curr_x_double_far, hs], fun n => ?_,
    segmentation_terminates ex_far hg⟩
  rw [curr_x_double_far, he]
  norm_num

/-- C16 on the code: in the two-bucket example, built with samples at cell middles, bucket `0`
has low wall `0`, stride `3 / 8` and stores `0, 1 / 16, 7 / 16, 5 / 8`; its last sample is the
function at the recorded high wall `9 / 8`, not at `3 / 16 + 3 * (3 / 8)`, where the function is
`13 / 16`; no base position makes the four samples equally spaced. -/
theorem extension_sample_breaks_spacing :
    ex2_cfg.init 0 5 = .ok ex2_table ∧ ex2_cfg._use_middle = true ∧
    ex2_table._cache[0]? = some [0, 1 / 16, 7 / 16, 5 / 8] ∧
    ex2_table._bucket_walls[0]? = some 0 ∧ ex2_table._bucket_walls[1]? = some (9 / 8) ∧
    ex2_table._bucket_granularities[0]? = some (3 / 8) ∧
    ([0, 1 / 16, 7 / 16, 5 / 8] : List ℚ)[3]? = some (ex2_cfg._cached_function (9 / 8)) ∧
    ex2_cfg._cached_function (0 + (3 / 8) / 2 + 3 * (3 / 8)) = 13 / 16 ∧
    ([0, 1 / 16, 7 / 16, 5 / 8] : List ℚ)[3]? ≠
      some (ex2_cfg._cached_function (0 + (3 / 8) / 2 + 3 * (3 / 8))) ∧
    ¬ ∃ p : ℚ, ∀ j : Nat, j < 4 →
      ([0, 1 / 16, 7 / 16, 5 / 8] : List ℚ)[j]? =
        some (ex2_cfg._cached_function (p + (j : ℚ) * (3 / 8))) := by
  have hf : ex2_cfg._cached_function = ex_ramp := rfl
  refine ⟨ex2_init, rfl, rfl, rfl, rfl, rfl, ?_, ?_, ?_, ?_⟩
  · rw [hf]; norm_num [ex_ramp]
  · rw [hf]; norm_num [ex_ramp]
  · rw [hf]; norm_num [ex_ramp]
  · rintro ⟨p, hp⟩
    have h1 := hp 1 (by norm_num)
    have h3 := hp 3 (by norm_num)
    rw [hf] at h1 h3
    simp only [List.getElem?_cons_succ, List.getElem?_cons_zero, Option.some.injEq,
      Nat.cast_one, one_mul, Nat.cast_ofNat] at h1 h3
    unfold ex_ramp at h1 h3
    split_ifs at h1 h3 <;> linarith

/-- C17 on the code: in the one-bucket example the sampling loop stores its third sample at key
`1`, which is the nominal high wall, and stops at key `3 / 2`; the statement after the loop
still appends a sample, taken at `3 / 2`, and the recorded high wall is `3 / 2`, not `1`. The
test `curr_key > last_bucket_elem` holds after every run of the loop. -/
theorem extension_sample_always_appended :
    fill_loop ex_cfg._cached_function 0 (1 / 2) 1 4
        { curr_key := 0, actual_bucket_elems := 0, bucket := [] } =
      some { curr_key := 3 / 2, actual_bucket_elems := 3, bucket := [0, 1 / 2, 1] } ∧
    ([0, 1 / 2, 1] : List ℚ)[2]? = some (ex_cfg._cached_function 1) ∧
    extend_past ex_cfg._cached_function 1
        { curr_key := 3 / 2, actual_bucket_elems := 3, bucket := [0, 1 / 2, 1] } =
      { curr_key := 3 / 2, actual_bucket_elems := 4, bucket := [0, 1 / 2, 1, 3 / 2] } ∧
    build_bucket ex_cfg 0 [0, 1] 1 4 0 =
      .ok { allocated := 4, low_wall := 0, high_wall := 3 / 2, bucket := [0, 1 / 2, 1, 3 / 2],
            actual_bucket_elems := 4, bucket_granularity := 1 / 2 } ∧
    (3 / 2 : ℚ) ≠ 1 ∧
    ∀ (f : ℚ → ℚ) (offset g last : ℚ) (fuel : Nat) (s r : FillState),
      fill_loop f offset g last fuel s = some r →
      (extend_past f last r).actual_bucket_elems = r.actual_bucket_elems + 1 := by
  refine ⟨?_, ?_, ?_, ex_bucket, by norm_num, ?_⟩
  · norm_num [fill_loop, ex_cfg, SmartCacher.new]
  · simp [ex_cfg, SmartCacher.new]
  · norm_num [extend_past, ex_cfg, SmartCacher.new]
  · intro f offset g last fuel s r h
    obtain ⟨m, _, _, _, h4, _⟩ := fill_loop_spec f offset g last fuel s r h
    exact (extend_past_spec f last r h4).2.1

/-- C18: on a table built by `init` and for a key in the domain, `retrieve` returns the
function at a position where a sample of the bucket chosen by the search was taken, and the
key is less than one stride of that bucket away from the position when samples are taken at
cell starts, at most half a stride away when they are taken at cell middles. -/
theorem retrieve_approximation (c : SmartCacher) (nan_cast fuel : Nat) (t : SmartCacher)
    (h : c.init nan_cast fuel = .ok t) (x : ℚ)
    (hlo : c._input_range_start ≤ x) (hhi : x ≤ c._input_range_end) :
    ∃ (s : SearchState) (g pos : ℚ) (bucket : List ℚ) (j : Nat),
      (∀ k, t._num_buckets ≤ k → search_loop t x k (search_start t) = .ok s) ∧
      t._bucket_granularities[s.found_bucket]? = some g ∧ 0 < g ∧
      t._cache[s.found_bucket]? = some bucket ∧
      bucket[j]? = some (c._cached_function pos) ∧
      (pos = s.smallest + (j : ℚ) * g + (if c._use_middle then 1 / 2 else 0) * g ∨
        pos = s.biggest) ∧
      (∀ k, t._num_buckets ≤ k → (t.retrieve x k).1 = .ok (c._cached_function pos)) ∧
      (c._use_middle = false → |x - pos| < g) ∧
      (c._use_middle = true → |x - pos| ≤ g / 2) := by
  obtain ⟨s, g, n, bucket, hr, _, _, _, hg, hc, hpos, h1, h2, hbig, hbucket, hret⟩ :=
    retrieve_value c nan_cast fuel t h x hlo hhi
  have hq : 0 ≤ (x - s.smallest) / g := div_nonneg (by linarith) hpos.le
  have hfl : ((minibucket_ind x s.smallest g : Nat) : ℚ) ≤ (x - s.smallest) / g :=
    Nat.floor_le hq
  have hfl1 : (x - s.smallest) / g < ((minibucket_ind x s.smallest g : Nat) : ℚ) + 1 :=
    Nat.lt_floor_add_one _
  rw [le_div_iff₀ hpos] at hfl
  rw [div_lt_iff₀ hpos] at hfl1
  have hlen : ((List.range (n + 1)).map
      (fun (j : Nat) => c._cached_function (s.smallest + (j : ℚ) * g +
        (if c._use_middle then 1 / 2 else 0) * g))).length = n + 1 := by simp
  rcases Nat.lt_or_ge (minibucket_ind x s.smallest g) (n + 1) with hidx | hidx
  · have hget : bucket[minibucket_ind x s.smallest g]? =
        some (c._cached_function (s.smallest + ((minibucket_ind x s.smallest g : Nat) : ℚ) * g +
          (if c._use_middle then 1 / 2 else 0) * g)) := by
      rw [hbucket, List.getElem?_append_left (by rw [hlen]; exact hidx), List.getElem?_map,
        List.getElem?_range hidx]
      rfl
    refine ⟨s, g, _, bucket, minibucket_ind x s.smallest g, hr, hg, hpos, hc, hget,
      Or.inl rfl, ?_, ?_, ?_⟩
    · intro k hk
      rw [hret k hk, hget]
    · intro hm
      rw [hm]
      simp only [Bool.false_eq_true, if_false, zero_mul, add_zero]
      rw [abs_lt]
      constructor <;> linarith
    · intro hm
      rw [hm]
      simp only [if_true]
      rw [abs_le]
      constructor <;> linarith
  · have hxe : x = s.biggest := by
      have h3 : ((n + 1 : Nat) : ℚ) ≤ ((minibucket_ind x s.smallest g : Nat) : ℚ) := by
        exact_mod_cast hidx
      push_cast at h3
      have h4 : ((n : ℚ) + 1) * g ≤ ((minibucket_ind x s.smallest g : Nat) : ℚ) * g :=
        mul_le_mul_of_nonneg_right h3 hpos.le
      linarith
    have hidx1 : minibucket_ind x s.smallest g = n + 1 := by
      have h5 : ((minibucket_ind x s.smallest g : Nat) : ℚ) * g ≤ ((n : ℚ) + 1) * g := by
        linarith
      have h6 : ((minibucket_ind x s.smallest g : Nat) : ℚ) ≤ ((n + 1 : Nat) : ℚ) := by
        push_cast
        exact le_of_mul_le_mul_right h5 hpos
      have h7 : minibucket_ind x s.smallest g ≤ n + 1 := by exact_mod_cast h6
      omega
    have hget : bucket[minibucket_ind x s.smallest g]? =
        some (c._cached_function s.biggest) := by
      rw [hidx1, hbucket, List.getElem?_append_right (by rw [hlen]), hlen, hbig]
      simp
    refine ⟨s, g, s.biggest, bucket, minibucket_ind x s.smallest g, hr, hg, hpos, hc, hget,
      Or.inr rfl, ?_, ?_, ?_⟩
    · intro k hk
      rw [hret k hk, hget]
    · intro _
      rw [hxe, sub_self, abs_zero]
      exact hpos
    · intro _
      rw [hxe, sub_self, abs_zero]
      linarith

/-- Witness for C18: the key `1 / 2` in the two-bucket example table. -/
theorem retrieve_approximation_witness :
    ex2_cfg.init 0 5 = .ok ex2_table ∧ ex2_cfg._input_range_start ≤ (1 / 2 : ℚ) ∧
    (1 / 2 : ℚ) ≤ ex2_cfg._input_range_end ∧
    ∃ (s : SearchState) (g pos : ℚ) (bucket : List ℚ) (j : Nat),
      (∀ k, ex2_table._num_buckets ≤ k →
        search_loop ex2_table (1 / 2) k (search_start ex2_table) = .ok s) ∧
      ex2_table._bucket_granularities[s.found_bucket]? = some g ∧ 0 < g ∧
      ex2_table._cache[s.found_bucket]? = some bucket ∧
      bucket[j]? = some (ex2_cfg._cached_function pos) ∧
      (pos = s.smallest + (j : ℚ) * g + (if ex2_cfg._use_middle then 1 / 2 else 0) * g ∨
        pos = s.biggest) ∧
      (∀ k, ex2_table._num_buckets ≤ k →
        (ex2_table.retrieve (1 / 2) k).1 = .ok (ex2_cfg._cached_function pos)) ∧
      (ex2_cfg._use_middle = false → |1 / 2 - pos| < g) ∧
      (ex2_cfg._use_middle = true → |1 / 2 - pos| ≤ g / 2) :=
  have h1 : ex2_cfg._input_range_start ≤ (1 / 2 : ℚ) := by norm_num [ex2_cfg, SmartCacher.new]
  have h2 : (1 / 2 : ℚ) ≤ ex2_cfg._input_range_end := by norm_num [ex2_cfg, SmartCacher.new]
  ⟨ex2_init, h1, h2, retrieve_approximation ex2_cfg 0 5 ex2_table ex2_init (1 / 2) h1 h2⟩

/-- C19: when `init` returns a table and the total roughness is not zero, the blended estimates
of the `K` buckets add up to the target capacity `C`, and the realized size satisfies
`C + K < get_size ≤ C + 4 * K`; in particular it exceeds the target capacity. -/
theorem realized_size_bounds (c : SmartCacher) (nan_cast fuel : Nat) (t : SmartCacher)
    (walls : List ℚ) (K : Nat) (h : c.init nan_cast fuel = .ok t)
    (hseg : segmentation c fuel = some (walls, K))
    (hsum : sum_of_dy_dxs (abs_dy_dx_per_bucket c walls K) ≠ some 0) :
    t._num_buckets = K ∧
    (∃ r : Nat → ℚ,
      (∀ i, i < K → raw_est c walls (abs_dy_dx_per_bucket c walls K)
        (sum_of_dy_dxs (abs_dy_dx_per_bucket c walls K)) i = some (r i)) ∧
      ∑ i in Finset.range K, r i = (c._est_max_cache_size : ℚ)) ∧
    c._est_max_cache_size + K < t.get_size ∧
    t.get_size ≤ c._est_max_cache_size + 4 * K ∧
    c._est_max_cache_size < t.get_size := by
  obtain ⟨walls1, hseg1, hexact⟩ := init_bucket_exact c nan_cast fuel t h
  obtain ⟨walls2, hseg2, hsize⟩ := init_size_sum c nan_cast fuel t h
  rw [hseg] at hseg1 hseg2
  injection hseg1 with e1
  injection e1 with e1 e2
  injection hseg2 with e3
  injection e3 with e3 _
  subst e1 e2 e3
  obtain ⟨_, hK, hw0, hwK⟩ := segmentation_spec c fuel walls _ hseg
  have hwidth : ∀ i, i < t._num_buckets → walls.getD i 0 < walls.getD (i + 1) 0 :=
    fun i hi => (stride_pos_iff c nan_cast walls _ i).mp (hexact i hi).1
  obtain ⟨w, hwdef⟩ : ∃ w : Nat → ℚ, ∀ j, w j = |c._cached_function (walls.getD j 0) -
      c._cached_function (walls.getD (j + 1) 0)| / |walls.getD (j + 1) 0 - walls.getD j 0| :=
    ⟨_, fun _ => rfl⟩
  have hw : ∀ j, j < t._num_buckets → weight c walls j = some (w j) := by
    intro j hj
    rw [hwdef, weight_value c walls j (hwidth j hj).ne']
  have hwnn : ∀ j, 0 ≤ w j := by
    intro j
    rw [hwdef]
    exact div_nonneg (abs_nonneg _) (abs_nonneg _)
  have hW0 : ∑ j in Finset.range t._num_buckets, w j ≠ 0 := by
    intro h0
    rw [sum_of_dy_dxs_value c walls w _ hw, h0] at hsum
    exact hsum rfl
  have hWpos : 0 < ∑ j in Finset.range t._num_buckets, w j :=
    lt_of_le_of_ne (Finset.sum_nonneg fun j _ => hwnn j) (Ne.symm hW0)
  have hDsum : ∑ i in Finset.range t._num_buckets, (walls.getD (i + 1) 0 - walls.getD i 0) =
      c._input_range_end - c._input_range_start := by
    rw [Finset.sum_range_sub (fun i => walls.getD i 0), hw0, hwK]
  have hDpos : 0 < c._input_range_end - c._input_range_start := by
    have := walls_chain (fun i => walls.getD i 0) _ hwidth _ hK (le_refl _)
    simp only [hw0, hwK] at this
    linarith
  obtain ⟨r, hrdef⟩ : ∃ r : Nat → ℚ, ∀ i, r i =
      ((c._est_max_cache_size : ℚ) * (w i / ∑ j in Finset.range t._num_buckets, w j) +
        (c._est_max_cache_size : ℚ) * (walls.getD (i + 1) 0 - walls.getD i 0) /
          (c._input_range_end - c._input_range_start)) / 2 := ⟨_, fun _ => rfl⟩
  have hraw : ∀ i, i < t._num_buckets →
      raw_est c walls (abs_dy_dx_per_bucket c walls t._num_buckets)
      (sum_of_dy_dxs (abs_dy_dx_per_bucket c walls t._num_buckets)) i = some (r i) := by
    intro i hi
    rw [hrdef, raw_est_value c walls w _ i hi hw hW0 hDpos.ne']
  have hrsum : ∑ i in Finset.range t._num_buckets, r i = (c._est_max_cache_size : ℚ) := by
    have e : ∀ i ∈ Finset.range t._num_buckets, r i =
        (c._est_max_cache_size : ℚ) / 2 / (∑ j in Finset.range t._num_buckets, w j) * w i +
        (c._est_max_cache_size : ℚ) / 2 / (c._input_range_end - c._input_range_start) *
          (walls.getD (i + 1) 0 - walls.getD i 0) := by
      intro i _
      have hD0 := hDpos.ne'
      rw [hrdef]
      field_simp
      ring
    have hD0 := hDpos.ne'
    rw [Finset.sum_congr rfl e, Finset.sum_add_distrib, ← Finset.mul_sum, ← Finset.mul_sum,
      hDsum]
    field_simp
    ring
  have hrnn : ∀ i, i < t._num_buckets → 0 ≤ r i := by
    intro i hi
    rw [hrdef]
    have h1 : 0 ≤ w i / ∑ j in Finset.range t._num_buckets, w j :=
      div_nonneg (hwnn i) hWpos.le
    have h2 : 0 ≤ (c._est_max_cache_size : ℚ) * (walls.getD (i + 1) 0 - walls.getD i 0) /
        (c._input_range_end - c._input_range_start) :=
      div_nonneg (mul_nonneg (Nat.cast_nonneg _) (by linarith [hwidth i hi])) hDpos.le
    have h3 : 0 ≤ (c._est_max_cache_size : ℚ) *
        (w i / ∑ j in Finset.range t._num_buckets, w j) := mul_nonneg (Nat.cast_nonneg _) h1
    linarith
  have hest : ∀ i, i < t._num_buckets →
      est_num_elems_for_bucket c nan_cast walls t._num_buckets i = max 2 ⌊r i⌋₊ := by
    intro i hi
    rw [hrdef, est_value c nan_cast walls w _ i hi hw hW0 hDpos.ne']
  have hlow : ∀ i ∈ Finset.range t._num_buckets, r i + 1 <
      ((est_num_elems_for_bucket c nan_cast walls t._num_buckets i + 2 : Nat) : ℚ) := by
    intro i hi
    rw [Finset.mem_range] at hi
    rw [hest i hi]
    have h1 : r i < (⌊r i⌋₊ : ℚ) + 1 := Nat.lt_floor_add_one (r i)
    have h2 : (⌊r i⌋₊ : ℚ) ≤ ((max 2 ⌊r i⌋₊ : Nat) : ℚ) := by
      exact_mod_cast le_max_right 2 ⌊r i⌋₊
    push_cast at h2 ⊢
    linarith
  have hhigh : ∀ i ∈ Finset.range t._num_buckets,
      ((est_num_elems_for_bucket c nan_cast walls t._num_buckets i + 2 : Nat) : ℚ) ≤
        r i + 4 := by
    intro i hi
    rw [Finset.mem_range] at hi
    rw [hest i hi]
    have h1 : (⌊r i⌋₊ : ℚ) ≤ r i := Nat.floor_le (hrnn i hi)
    have h0 := hrnn i hi
    have h2 : ((max 2 ⌊r i⌋₊ : Nat) : ℚ) ≤ r i + 2 := by
      rcases le_total 2 ⌊r i⌋₊ with h3 | h3
      · rw [max_eq_right h3]; linarith
      · rw [max_eq_left h3]; push_cast; linarith
    push_cast at h2 ⊢
    linarith
  have hne : (Finset.range t._num_buckets).Nonempty := Finset.nonempty_range_iff.mpr (by omega)
  have hsizeq : (t.get_size : ℚ) = ∑ i in Finset.range t._num_buckets,
      ((est_num_elems_for_bucket c nan_cast walls t._num_buckets i + 2 : Nat) : ℚ) := by
    rw [hsize, Nat.cast_sum]
  have hlt : (c._est_max_cache_size : ℚ) + (t._num_buckets : ℚ) < (t.get_size : ℚ) := by
    rw [hsizeq]
    have := Finset.sum_lt_sum_of_nonempty hne hlow
    rw [Finset.sum_add_distrib, hrsum] at this
    simpa using this
  have hle : (t.get_size : ℚ) ≤ (c._est_max_cache_size : ℚ) + 4 * (t._num_buckets : ℚ) := by
    rw [hsizeq]
    have := Finset.sum_le_sum hhigh
    rw [Finset.sum_add_distrib, hrsum] at this
    simpa [mul_comm] using this
  have hlt1 : c._est_max_cache_size + t._num_buckets < t.get_size := by exact_mod_cast hlt
  have hle1 : t.get_size ≤ c._est_max_cache_size + 4 * t._num_buckets := by exact_mod_cast hle
  exact ⟨rfl, ⟨r, hraw, hrsum⟩, hlt1, hle1, by omega⟩

/-- Witness for C19: the one-bucket example, with target capacity `0` and realized size `4`. -/
theorem realized_size_bounds_witness :
    ex_cfg.init 0 4 = .ok ex_table ∧ segmentation ex_cfg 4 = some ([0, 1], 1) ∧
    sum_of_dy_dxs (abs_dy_dx_per_bucket ex_cfg [0, 1] 1) ≠ some 0 ∧
    ex_cfg._est_max_cache_size + 1 < ex_table.get_size ∧
    ex_table.get_size ≤ ex_cfg._est_max_cache_size + 4 * 1 :=
  have hsum : sum_of_dy_dxs (abs_dy_dx_per_bucket ex_cfg [0, 1] 1) ≠ some 0 := by
    rw [ex_sum]; simp
  have h := realized_size_bounds ex_cfg 0 4 ex_table [0, 1] 1 ex_init ex_segmentation hsum
  ⟨ex_init, ex_segmentation, hsum, h.2.2.1, h.2.2.2.1⟩

end AutoCache
